import Mathlib

/-!
# Verification of the SoA Builder matrix engine

Shallow embedding of `src/soa_builder/web/app.py`: the SQLite-backed store is
modelled as explicit lists of rows (one list per table, in rowid/insertion
order) together with the `AUTOINCREMENT` counters; each HTTP handler becomes a
pure function on that state, raising `HTTPException` is modelled as returning
`Except Err`.  `ORDER BY order_index` is modelled by an insertion sort on the
`order_index` column (SQL leaves the order of equal keys unspecified; every
state the API can produce has pairwise-distinct `order_index` values per
container, where all sorts agree).  Writing the CSV file is modelled as
returning the list of rows that `csv.writer` would write.
-/

namespace SoaBuilder

/-- Row of the `soa` table (the `created_at` column plays no role in any
operation's logic and is omitted). -/
structure Soa where
  id : Nat
  name : String
deriving Repr, DecidableEq

/-- Row of the `visit` table. `raw_header` is `TEXT`; every row the API inserts
stores `payload.raw_header or payload.name`, always a string, so the column is
modelled as `String` (Python truthiness on strings is the empty-string test). -/
structure Visit where
  id : Nat
  soa_id : Nat
  name : String
  raw_header : String
  order_index : Nat
deriving Repr, DecidableEq

/-- Row of the `activity` table. -/
structure Activity where
  id : Nat
  soa_id : Nat
  name : String
  order_index : Nat
deriving Repr, DecidableEq

/-- Row of the `cell` table. -/
structure Cell where
  id : Nat
  soa_id : Nat
  visit_id : Nat
  activity_id : Nat
  status : String
deriving Repr, DecidableEq

/-- Errors surfaced by the handlers: `HTTPException 404` and the `ValueError`
raised by `_generate_wide_csv` (the spec's `NotFound` / `InvalidState`). -/
inductive Err where
  | notFound
  | invalidState
deriving Repr, DecidableEq

/-- The SQLite database: the four tables in rowid order plus the
`AUTOINCREMENT` counters (SQLite starts them at 1). -/
structure DB where
  soas : List Soa
  visits : List Visit
  activities : List Activity
  cells : List Cell
  nextSoaId : Nat
  nextVisitId : Nat
  nextActivityId : Nat
  nextCellId : Nat
deriving Repr, DecidableEq

/-- The freshly `_init_db`-ed database. -/
def DB.empty : DB := ⟨[], [], [], [], 1, 1, 1, 1⟩

/-- Tables `visit` and `activity` expose the same columns to `_reindex`
(the Python `_reindex` is generic over the table name); this interface captures
exactly the columns it touches. -/
class RowLike (α : Type) where
  rid : α → Nat
  rsoa : α → Nat
  roi : α → Nat
  setOi : α → Nat → α
  rid_setOi : ∀ a n, rid (setOi a n) = rid a
  rsoa_setOi : ∀ a n, rsoa (setOi a n) = rsoa a
  roi_setOi : ∀ a n, roi (setOi a n) = n
  setOi_setOi : ∀ a m n, setOi (setOi a m) n = setOi a n
  setOi_roi : ∀ a, setOi a (roi a) = a

instance : RowLike Visit where
  rid v := v.id
  rsoa v := v.soa_id
  roi v := v.order_index
  setOi v n := {v with order_index := n}
  rid_setOi := fun _ _ => rfl
  rsoa_setOi := fun _ _ => rfl
  roi_setOi := fun _ _ => rfl
  setOi_setOi := fun _ _ _ => rfl
  setOi_roi := fun _ => rfl

instance : RowLike Activity where
  rid a := a.id
  rsoa a := a.soa_id
  roi a := a.order_index
  setOi a n := {a with order_index := n}
  rid_setOi := fun _ _ => rfl
  rsoa_setOi := fun _ _ => rfl
  roi_setOi := fun _ _ => rfl
  setOi_setOi := fun _ _ _ => rfl
  setOi_roi := fun _ => rfl

open RowLike

/-- Query `SELECT ... WHERE soa_id=?`: the rows of one container, in table order. -/
def rowsOf [RowLike α] (t : List α) (s : Nat) : List α :=
  t.filter (fun v => rsoa v == s)

/-- Insertion step of the model of `ORDER BY order_index`. -/
def insertRow [RowLike α] (v : α) : List α → List α
  | [] => [v]
  | w :: ws => if roi v ≤ roi w then v :: w :: ws else w :: insertRow v ws

/-- Model of `ORDER BY order_index` (insertion sort on that column). -/
def sortRows [RowLike α] : List α → List α
  | [] => []
  | v :: vs => insertRow v (sortRows vs)

/-- Python `enumerate(ids, start=1)`. -/
def enum1 (ids : List Nat) : List (Nat × Nat) :=
  (List.range' 1 ids.length).zip ids

/-- One `UPDATE {table} SET order_index=? WHERE id=?` statement: every row
whose `id` matches gets the new `order_index`. -/
def setRowOi [RowLike α] (t : List α) (idx i : Nat) : List α :=
  t.map (fun v => if rid v == i then setOi v idx else v)

/-- The `for idx, _id in enumerate(ids, start=1)` loop of `_reindex`. -/
def applyUpdates [RowLike α] (t : List α) : List (Nat × Nat) → List α
  | [] => t
  | (idx, i) :: rest => applyUpdates (setRowOi t idx i) rest

/-- Body of `_reindex(table, soa_id)`: read the container's rows in
`order_index` order, then renumber them 1..N by id. -/
def reindexRows [RowLike α] (t : List α) (s : Nat) : List α :=
  applyUpdates t (enum1 ((sortRows (rowsOf t s)).map (fun v => rid v)))

/-- Which table `_reindex` is asked to renumber. -/
inductive TableName where
  | visit
  | activity
deriving Repr, DecidableEq

/-- Helper `_reindex(table, soa_id)` as a state transformer on the database. -/
def _reindex (db : DB) (table : TableName) (soa_id : Nat) : DB :=
  match table with
  | .visit => {db with visits := reindexRows db.visits soa_id}
  | .activity => {db with activities := reindexRows db.activities soa_id}

/-- Helper `_soa_exists`. -/
def _soa_exists (db : DB) (soa_id : Nat) : Bool :=
  db.soas.any (fun s => s.id == soa_id)

/-- Handler `POST /soa`: insert a container row and return its id. -/
def create_soa (db : DB) (name : String) : DB × Nat :=
  ({db with soas := db.soas ++ [⟨db.nextSoaId, name⟩],
            nextSoaId := db.nextSoaId + 1},
   db.nextSoaId)

/-- Python `payload.raw_header or payload.name` (`None` and `""` are falsy). -/
def pyOr (a : Option String) (b : String) : String :=
  match a with
  | some s => if s = "" then b else s
  | none => b

/-- Handler `POST /soa/{id}/visits`: `order_index` is `COUNT(*)` of the container's
visits plus one; the stored `raw_header` is `payload.raw_header or
payload.name`.  Returns the new row id and `order_index`. -/
def add_visit (db : DB) (soa_id : Nat) (name : String) (raw_header : Option String) :
    Except Err (DB × Nat × Nat) :=
  if _soa_exists db soa_id then
    let order_index := (db.visits.filter (fun v => v.soa_id == soa_id)).length + 1
    .ok ({db with
            visits := db.visits ++ [⟨db.nextVisitId, soa_id, name, pyOr raw_header name, order_index⟩],
            nextVisitId := db.nextVisitId + 1},
         db.nextVisitId, order_index)
  else .error .notFound

/-- Handler `POST /soa/{id}/activities`. -/
def add_activity (db : DB) (soa_id : Nat) (name : String) :
    Except Err (DB × Nat × Nat) :=
  if _soa_exists db soa_id then
    let order_index := (db.activities.filter (fun a => a.soa_id == soa_id)).length + 1
    .ok ({db with
            activities := db.activities ++ [⟨db.nextActivityId, soa_id, name, order_index⟩],
            nextActivityId := db.nextActivityId + 1},
         db.nextActivityId, order_index)
  else .error .notFound

/-- Handler `POST /soa/{id}/cells`: upsert.  `SELECT id FROM cell WHERE soa_id=? AND
visit_id=? AND activity_id=?` with `fetchone` is the first matching row in
table order; if found, `UPDATE cell SET status=? WHERE id=?`, else `INSERT`.
Returns the cell id and the status sent back to the client. -/
def set_cell (db : DB) (soa_id visit_id activity_id : Nat) (status : String) :
    Except Err (DB × Nat × String) :=
  if _soa_exists db soa_id then
    match db.cells.find? (fun c =>
        c.soa_id == soa_id && c.visit_id == visit_id && c.activity_id == activity_id) with
    | some row =>
        .ok ({db with cells := db.cells.map (fun c =>
                if c.id == row.id then {c with status := status} else c)},
             row.id, status)
    | none =>
        .ok ({db with cells := db.cells ++ [⟨db.nextCellId, soa_id, visit_id, activity_id, status⟩],
                      nextCellId := db.nextCellId + 1},
             db.nextCellId, status)
  else .error .notFound

/-- Helper `_fetch_matrix`: visits and activities of the container ordered by
`order_index`, cells of the container in table order. -/
def _fetch_matrix (db : DB) (soa_id : Nat) :
    List Visit × List Activity × List Cell :=
  (sortRows (rowsOf db.visits soa_id),
   sortRows (rowsOf db.activities soa_id),
   db.cells.filter (fun c => c.soa_id == soa_id))

/-- The `next((c["status"] for c in cells if c["visit_id"] == v["id"] and
c["activity_id"] == a["id"]), "")` lookup of `_generate_wide_csv`. -/
def cellLookup (cells : List Cell) (vid aid : Nat) : String :=
  match cells.find? (fun c => c.visit_id == vid && c.activity_id == aid) with
  | some c => c.status
  | none => ""

/-- Helper `_generate_wide_csv`: fails (`ValueError` → `InvalidState`) when the
container has no visit or no activity; otherwise returns the rows written to
the CSV file: the header row then one row per activity. -/
def _generate_wide_csv (db : DB) (soa_id : Nat) : Except Err (List (List String)) :=
  let visits := (_fetch_matrix db soa_id).1
  let activities := (_fetch_matrix db soa_id).2.1
  let cells := (_fetch_matrix db soa_id).2.2
  if visits.isEmpty || activities.isEmpty then .error .invalidState
  else
    let visit_headers := visits.map (fun v => if v.raw_header = "" then v.name else v.raw_header)
    let matrix := activities.map (fun a =>
      a.name :: visits.map (fun v => cellLookup cells v.id a.id))
    .ok (("Activity" :: visit_headers) :: matrix)

/-- Handler `DELETE /soa/{soa_id}/visits/{visit_id}`: check the container, check the
visit belongs to it, cascade `DELETE FROM cell WHERE soa_id=? AND visit_id=?`,
`DELETE FROM visit WHERE id=?`, then `_reindex("visit", soa_id)`. -/
def delete_visit (db : DB) (soa_id visit_id : Nat) : Except Err DB :=
  if _soa_exists db soa_id then
    if db.visits.any (fun v => v.id == visit_id && v.soa_id == soa_id) then
      let db1 := {db with
        cells := db.cells.filter (fun c => !(c.soa_id == soa_id && c.visit_id == visit_id)),
        visits := db.visits.filter (fun v => v.id != visit_id)}
      .ok (_reindex db1 .visit soa_id)
    else .error .notFound
  else .error .notFound

/-- Handler `DELETE /soa/{soa_id}/activities/{activity_id}`. -/
def delete_activity (db : DB) (soa_id activity_id : Nat) : Except Err DB :=
  if _soa_exists db soa_id then
    if db.activities.any (fun a => a.id == activity_id && a.soa_id == soa_id) then
      let db1 := {db with
        cells := db.cells.filter (fun c => !(c.soa_id == soa_id && c.activity_id == activity_id)),
        activities := db.activities.filter (fun a => a.id != activity_id)}
      .ok (_reindex db1 .activity soa_id)
    else .error .notFound
  else .error .notFound

/-- One client operation against the API. -/
inductive Op where
  | createSoa (name : String)
  | addVisit (soa_id : Nat) (name : String) (raw_header : Option String)
  | addActivity (soa_id : Nat) (name : String)
  | setCell (soa_id visit_id activity_id : Nat) (status : String)
  | deleteVisit (soa_id visit_id : Nat)
  | deleteActivity (soa_id activity_id : Nat)
deriving Repr, DecidableEq

/-- Effect of one operation on the database; a handler that raises commits
nothing (all checks in the handlers precede their writes). -/
def step (db : DB) : Op → DB
  | .createSoa n => (create_soa db n).1
  | .addVisit s n rh =>
      match add_visit db s n rh with
      | .ok (db', _) => db'
      | .error _ => db
  | .addActivity s n =>
      match add_activity db s n with
      | .ok (db', _) => db'
      | .error _ => db
  | .setCell s v a st =>
      match set_cell db s v a st with
      | .ok (db', _) => db'
      | .error _ => db
  | .deleteVisit s v =>
      match delete_visit db s v with
      | .ok db' => db'
      | .error _ => db
  | .deleteActivity s a =>
      match delete_activity db s a with
      | .ok db' => db'
      | .error _ => db

/-- Run a sequence of operations from a given database. -/
def run (db : DB) (ops : List Op) : DB := ops.foldl step db

/-- Visits of a container, in table order. -/
def visitsOf (db : DB) (s : Nat) : List Visit := rowsOf db.visits s

/-- Activities of a container, in table order. -/
def activitiesOf (db : DB) (s : Nat) : List Activity := rowsOf db.activities s

/-- Cells of a container, in table order. -/
def cellsOf (db : DB) (s : Nat) : List Cell :=
  db.cells.filter (fun c => c.soa_id == s)

/-- Two cell rows do not share the composite (container, visit, activity)
key. -/
def keyDistinct (c c' : Cell) : Prop :=
  ¬(c.soa_id = c'.soa_id ∧ c.visit_id = c'.visit_id ∧ c.activity_id = c'.activity_id)

instance : ∀ c c', Decidable (keyDistinct c c') :=
  fun c c' => inferInstanceAs
    (Decidable ¬(c.soa_id = c'.soa_id ∧ c.visit_id = c'.visit_id ∧ c.activity_id = c'.activity_id))

/-! ## Order-by lemmas: the insertion-sort model of `ORDER BY order_index` -/

/-- Comparison by `order_index` on rows. -/
abbrev OiLe [RowLike α] (a b : α) : Prop := roi a ≤ roi b

/-- Strict `order_index`-comparison on rows. -/
abbrev OiLt [RowLike α] (a b : α) : Prop := roi a < roi b

theorem insertRow_perm [RowLike α] (v : α) (l : List α) :
    (insertRow v l).Perm (v :: l) := by
  induction l with
  | nil => exact List.Perm.refl _
  | cons w ws ih =>
    unfold insertRow
    by_cases h : roi v ≤ roi w
    · rw [if_pos h]
    · rw [if_neg h]
      exact (ih.cons w).trans (List.Perm.swap v w ws)

theorem sortRows_perm [RowLike α] (l : List α) : (sortRows l).Perm l := by
  induction l with
  | nil => exact List.Perm.refl _
  | cons v vs ih => exact (insertRow_perm v (sortRows vs)).trans (ih.cons v)

theorem insertRow_pairwise [RowLike α] (v : α) {l : List α}
    (h : l.Pairwise (OiLe (α := α))) : (insertRow v l).Pairwise OiLe := by
  induction l with
  | nil => simp [insertRow]
  | cons w ws ih =>
    rcases List.pairwise_cons.mp h with ⟨hw, hws⟩
    unfold insertRow
    by_cases hvw : roi v ≤ roi w
    · rw [if_pos hvw]
      refine List.pairwise_cons.mpr ⟨?_, h⟩
      intro b hb
      rcases List.mem_cons.mp hb with rfl | hb
      · exact hvw
      · exact le_trans hvw (hw b hb)
    · rw [if_neg hvw]
      refine List.pairwise_cons.mpr ⟨?_, ih hws⟩
      intro b hb
      rcases List.mem_cons.mp ((insertRow_perm v ws).mem_iff.mp hb) with rfl | hb
      · exact le_of_lt (lt_of_not_le hvw)
      · exact hw b hb

theorem sortRows_pairwise [RowLike α] (l : List α) :
    (sortRows l).Pairwise (OiLe (α := α)) := by
  induction l with
  | nil => exact List.Pairwise.nil
  | cons v vs ih => exact insertRow_pairwise v ih

theorem sortRows_of_pairwise [RowLike α] {l : List α}
    (h : l.Pairwise (OiLe (α := α))) : sortRows l = l := by
  induction l with
  | nil => rfl
  | cons v vs ih =>
    rcases List.pairwise_cons.mp h with ⟨hv, hvs⟩
    show insertRow v (sortRows vs) = v :: vs
    rw [ih hvs]
    cases vs with
    | nil => rfl
    | cons w ws =>
      show insertRow v (w :: ws) = _
      unfold insertRow
      rw [if_pos (show roi v ≤ roi w from hv w (List.mem_cons_self w ws))]

/-- A sorted list and a strictly sorted list that are permutations of each
other are equal. -/
theorem eq_of_perm_of_oi_sorted [RowLike α] {l m : List α}
    (hperm : l.Perm m) (hl : l.Pairwise (OiLe (α := α)))
    (hm : m.Pairwise (OiLt (α := α))) : l = m := by
  have hmnd : (m.map (fun v => roi v)).Nodup :=
    List.pairwise_map.mpr (hm.imp (fun h => ne_of_lt h))
  have hlnd : (l.map (fun v => roi v)).Nodup :=
    ((hperm.map (fun v => roi v)).symm).nodup hmnd
  have hlne : l.Pairwise (fun a b => roi a ≠ roi b) := List.pairwise_map.mp hlnd
  have hllt : l.Pairwise (OiLt (α := α)) :=
    (hl.and hlne).imp (fun h => lt_of_le_of_ne h.1 h.2)
  have hanti : IsAntisymm α (fun a b => OiLt a b ∨ a = b) := by
    constructor
    intro a b hab hba
    rcases hab with hab | rfl
    · rcases hba with hba | rfl
      · exact absurd hba (not_lt_of_lt hab)
      · rfl
    · rfl
  exact @List.eq_of_perm_of_sorted α (fun a b => OiLt a b ∨ a = b) hanti l m hperm
    (hllt.imp Or.inl) (hm.imp Or.inl)

/-! ## The renumbering loop of `_reindex` -/

/-- Cumulative effect of the update loop on a single row: the row gets the
index paired with its id (first pair wins; the loop's pairs carry distinct
ids). -/
def applyPairs [RowLike α] (pairs : List (Nat × Nat)) (v : α) : α :=
  match pairs.find? (fun p => p.2 == rid v) with
  | some p => setOi v p.1
  | none => v

/-- Renumber a block of rows with consecutive indices starting at `k`. -/
def assignFrom [RowLike α] (k : Nat) (L : List α) : List α :=
  (L.zip (List.range' k L.length)).map (fun p => setOi p.1 p.2)

theorem applyPairs_nil [RowLike α] (v : α) : applyPairs [] v = v := rfl

theorem applyPairs_rid [RowLike α] (pairs : List (Nat × Nat)) (v : α) :
    rid (applyPairs pairs v) = rid v := by
  unfold applyPairs
  cases pairs.find? (fun p => p.2 == rid v) with
  | none => rfl
  | some p => exact rid_setOi v p.1

theorem applyPairs_rsoa [RowLike α] (pairs : List (Nat × Nat)) (v : α) :
    rsoa (applyPairs pairs v) = rsoa v := by
  unfold applyPairs
  cases pairs.find? (fun p => p.2 == rid v) with
  | none => rfl
  | some p => exact rsoa_setOi v p.1

theorem applyPairs_of_not_mem [RowLike α] {pairs : List (Nat × Nat)} {v : α}
    (h : rid v ∉ pairs.map Prod.snd) : applyPairs pairs v = v := by
  unfold applyPairs
  have hnone : pairs.find? (fun p => p.2 == rid v) = none := by
    rw [List.find?_eq_none]
    intro p hp hpv
    exact h (List.mem_map.mpr ⟨p, hp, eq_of_beq hpv⟩)
  rw [hnone]

theorem map_eq_self [RowLike α] {l : List α} {f : α → α}
    (h : ∀ v ∈ l, f v = v) : l.map f = l := by
  induction l with
  | nil => rfl
  | cons v vs ih =>
    rw [List.map_cons, h v (List.mem_cons_self v vs),
      ih (fun w hw => h w (List.mem_cons_of_mem v hw))]

theorem enum1_map_snd (ids : List Nat) : (enum1 ids).map Prod.snd = ids :=
  List.map_snd_zip _ _ (by rw [List.length_range'])

theorem applyPairs_cons_pos [RowLike α] (idx i : Nat) (rest : List (Nat × Nat)) (v : α)
    (h : i = rid v) : applyPairs ((idx, i) :: rest) v = setOi v idx := by
  unfold applyPairs
  rw [@List.find?_cons_of_pos _ (fun p => p.2 == rid v) (idx, i) rest (beq_iff_eq.mpr h)]

theorem applyPairs_cons_neg [RowLike α] (idx i : Nat) (rest : List (Nat × Nat)) (v : α)
    (h : ¬i = rid v) : applyPairs ((idx, i) :: rest) v = applyPairs rest v := by
  unfold applyPairs
  rw [@List.find?_cons_of_neg _ (fun p => p.2 == rid v) (idx, i) rest (by simpa using h)]

/-- When the ids in the pair list are pairwise distinct, the sequential
update loop acts on every row independently. -/
theorem applyUpdates_eq_map [RowLike α] (t : List α) (pairs : List (Nat × Nat))
    (hnd : (pairs.map Prod.snd).Nodup) :
    applyUpdates t pairs = t.map (applyPairs pairs) := by
  induction pairs generalizing t with
  | nil => exact (map_eq_self (fun v _ => applyPairs_nil v)).symm
  | cons p rest ih =>
    obtain ⟨idx, i⟩ := p
    rw [List.map_cons] at hnd
    rcases List.nodup_cons.mp hnd with ⟨hi, hrest⟩
    show applyUpdates (setRowOi t idx i) rest = _
    rw [ih (setRowOi t idx i) hrest]
    unfold setRowOi
    rw [List.map_map]
    apply List.map_congr_left
    intro v _
    show applyPairs rest (if rid v == i then setOi v idx else v) = _
    by_cases h : rid v = i
    · rw [if_pos (beq_iff_eq.mpr h), applyPairs_cons_pos idx i rest v h.symm,
        applyPairs_of_not_mem (by rw [rid_setOi, h]; exact hi)]
    · rw [if_neg (by simpa using h), applyPairs_cons_neg idx i rest v (fun e => h e.symm)]

theorem assignFrom_cons [RowLike α] (k : Nat) (v : α) (L : List α) :
    assignFrom k (v :: L) = setOi v k :: assignFrom (k + 1) L := by
  unfold assignFrom
  rw [List.length_cons, List.range'_succ, List.zip_cons_cons, List.map_cons]

theorem assignFrom_map_roi [RowLike α] (k : Nat) (L : List α) :
    (assignFrom k L).map (fun v => roi v) = List.range' k L.length := by
  induction L generalizing k with
  | nil => rfl
  | cons v L' ih =>
    rw [assignFrom_cons, List.map_cons, roi_setOi, List.length_cons, List.range'_succ, ih]

theorem assignFrom_length [RowLike α] (k : Nat) (L : List α) :
    (assignFrom k L).length = L.length := by
  induction L generalizing k with
  | nil => rfl
  | cons v L' ih => rw [assignFrom_cons, List.length_cons, List.length_cons, ih]

theorem assignFrom_append [RowLike α] (k : Nat) (A B : List α) :
    assignFrom k (A ++ B) = assignFrom k A ++ assignFrom (k + A.length) B := by
  induction A generalizing k with
  | nil => rfl
  | cons v A' ih =>
    have hk : k + (v :: A').length = k + 1 + A'.length := by
      rw [List.length_cons]
      omega
    rw [List.cons_append, assignFrom_cons, assignFrom_cons, ih (k + 1), hk, List.cons_append]

/-- Renumbering rows that already carry exactly the indices being assigned is
the identity. -/
theorem assignFrom_of_map_roi [RowLike α] {k : Nat} {L : List α}
    (h : L.map (fun v => roi v) = List.range' k L.length) : assignFrom k L = L := by
  induction L generalizing k with
  | nil => rfl
  | cons v L' ih =>
    rw [List.map_cons, List.length_cons, List.range'_succ] at h
    obtain ⟨hv, hL'⟩ := List.cons_eq_cons.mp h
    rw [assignFrom_cons, ih hL', ← hv, setOi_roi]

/-- Renumbering rows whose indices are exactly one above the assigned block
decrements every index by one. -/
theorem assignFrom_shift [RowLike α] {k : Nat} {L : List α}
    (h : L.map (fun v => roi v) = List.range' (k + 1) L.length) :
    assignFrom k L = L.map (fun v => setOi v (roi v - 1)) := by
  induction L generalizing k with
  | nil => rfl
  | cons v L' ih =>
    rw [List.map_cons, List.length_cons, List.range'_succ] at h
    obtain ⟨hv, hL'⟩ := List.cons_eq_cons.mp h
    rw [assignFrom_cons, List.map_cons, ih hL', hv]
    rfl

/-- The update loop never changes a row's id column. -/
theorem applyUpdates_map_rid [RowLike α] (t : List α) (pairs : List (Nat × Nat)) :
    (applyUpdates t pairs).map (fun v => rid v) = t.map (fun v => rid v) := by
  induction pairs generalizing t with
  | nil => rfl
  | cons p rest ih =>
    obtain ⟨idx, i⟩ := p
    show (applyUpdates (setRowOi t idx i) rest).map _ = _
    rw [ih]
    unfold setRowOi
    rw [List.map_map]
    apply List.map_congr_left
    intro v _
    show rid (if rid v == i then setOi v idx else v) = rid v
    by_cases h : rid v == i
    · rw [if_pos h, rid_setOi]
    · rw [if_neg h]

/-- The key positional fact about the `_reindex` loop: applied to the very
rows whose ids were enumerated (all distinct), it assigns rank `j` the index
`j` (1-based). -/
theorem map_applyPairs_zip [RowLike α] (L : List α) (k : Nat)
    (hnd : (L.map (fun v => rid v)).Nodup) :
    L.map (applyPairs ((List.range' k L.length).zip (L.map (fun v => rid v)))) =
      assignFrom k L := by
  induction L generalizing k with
  | nil => rfl
  | cons v L' ih =>
    rw [List.map_cons] at hnd
    rcases List.nodup_cons.mp hnd with ⟨hv, hL'⟩
    simp only [List.length_cons, List.range'_succ, List.map_cons, List.zip_cons_cons,
      assignFrom_cons]
    congr 1
    · exact applyPairs_cons_pos k (rid v) _ v rfl
    · have hcongr : ∀ w ∈ L',
          applyPairs ((k, rid v) ::
              (List.range' (k + 1) L'.length).zip (L'.map (fun u => rid u))) w =
            applyPairs ((List.range' (k + 1) L'.length).zip (L'.map (fun u => rid u))) w := by
        intro w hw
        exact applyPairs_cons_neg _ _ _ _
          (fun e => hv (by rw [e]; exact List.mem_map.mpr ⟨w, hw, rfl⟩))
      rw [List.map_congr_left hcongr]
      exact ih (k + 1) hL'

theorem eq_self_of_map_eq {α : Type} {f : α → α} {l : List α}
    (h : l.map f = l) : ∀ v ∈ l, f v = v := by
  induction l with
  | nil => intro v hv; cases hv
  | cons a l ih =>
    rw [List.map_cons] at h
    obtain ⟨h1, h2⟩ := List.cons_eq_cons.mp h
    intro v hv
    rcases List.mem_cons.mp hv with rfl | hv
    · exact h1
    · exact ih h2 v hv

theorem applyPairs_idem [RowLike α] (pairs : List (Nat × Nat)) (v : α) :
    applyPairs pairs (applyPairs pairs v) = applyPairs pairs v := by
  cases hf : pairs.find? (fun p => p.2 == rid v) with
  | none =>
    have h1 : applyPairs pairs v = v := by unfold applyPairs; rw [hf]
    rw [h1]
    exact h1
  | some p =>
    have h1 : applyPairs pairs v = setOi v p.1 := by unfold applyPairs; rw [hf]
    have h2 : applyPairs pairs (setOi v p.1) = setOi (setOi v p.1) p.1 := by
      unfold applyPairs
      simp only [rid_setOi]
      rw [hf]
    rw [h1, h2, setOi_setOi]

/-! ## Facts about `_reindex` at the table level -/

theorem rowsOf_map [RowLike α] (t : List α) (s : Nat) (g : α → α)
    (h : ∀ v, rsoa (g v) = rsoa v) :
    rowsOf (t.map g) s = (rowsOf t s).map g := by
  unfold rowsOf
  rw [List.filter_map]
  congr 1
  exact List.filter_congr (fun v _ => by
    show (rsoa (g v) == s) = (rsoa v == s)
    rw [h v])

theorem rowsOf_filter [RowLike α] (t : List α) (s : Nat) (q : α → Bool) :
    rowsOf (t.filter q) s = (rowsOf t s).filter q := by
  unfold rowsOf
  rw [List.filter_filter, List.filter_filter]
  exact List.filter_congr (fun v _ => Bool.and_comm _ _)

theorem nodup_rid_rowsOf [RowLike α] {t : List α} (hnd : (t.map (fun v => rid v)).Nodup)
    (s : Nat) : ((rowsOf t s).map (fun v => rid v)).Nodup :=
  List.Nodup.sublist (List.Sublist.map _ (List.filter_sublist t)) hnd

theorem nodup_rid_sortRows [RowLike α] {L : List α}
    (hnd : (L.map (fun v => rid v)).Nodup) :
    ((sortRows L).map (fun v => rid v)).Nodup :=
  (((sortRows_perm L).map _).symm).nodup hnd

theorem pairwise_oiLt_of_contig [RowLike α] {L : List α} {k : Nat}
    (h : L.map (fun v => roi v) = List.range' k L.length) :
    L.Pairwise (OiLt (α := α)) := by
  have hp : List.Pairwise (· < ·) (L.map (fun v => roi v)) := by
    rw [h]
    exact List.pairwise_lt_range' k L.length
  exact (@List.pairwise_map _ _ (fun v => roi v) (· < ·) L).mp hp

/-- A row of a different container never appears among the enumerated ids. -/
theorem rid_not_mem_ids [RowLike α] {t : List α} (hnd : (t.map (fun v => rid v)).Nodup)
    {s : Nat} {w : α} (hwt : w ∈ t) (hws : rsoa w ≠ s) :
    rid w ∉ (sortRows (rowsOf t s)).map (fun v => rid v) := by
  intro hmem
  rcases List.mem_map.mp hmem with ⟨u, hu, huid⟩
  have hus : u ∈ rowsOf t s := (sortRows_perm _).mem_iff.mp hu
  have hut : u ∈ t := List.mem_of_mem_filter hus
  have huw : u = w := List.inj_on_of_nodup_map hnd hut hwt huid
  apply hws
  rw [← huw]
  exact eq_of_beq (List.mem_filter.mp hus).2

/-- With distinct ids throughout the table, the `_reindex` loop is a map. -/
theorem reindexRows_eq_map [RowLike α] (t : List α) (s : Nat)
    (hnd : (t.map (fun v => rid v)).Nodup) :
    reindexRows t s =
      t.map (applyPairs (enum1 ((sortRows (rowsOf t s)).map (fun v => rid v)))) := by
  unfold reindexRows
  exact applyUpdates_eq_map _ _
    (by rw [enum1_map_snd]; exact nodup_rid_sortRows (nodup_rid_rowsOf hnd s))

/-- Running `_reindex` on one container leaves every other container's rows alone. -/
theorem reindexRows_other [RowLike α] (t : List α) (s s' : Nat)
    (hnd : (t.map (fun v => rid v)).Nodup) (hne : s' ≠ s) :
    rowsOf (reindexRows t s) s' = rowsOf t s' := by
  rw [reindexRows_eq_map t s hnd, rowsOf_map _ _ _ (applyPairs_rsoa _)]
  apply map_eq_self
  intro w hw
  apply applyPairs_of_not_mem
  rw [enum1_map_snd]
  rcases List.mem_filter.mp hw with ⟨hwt, hws'⟩
  exact rid_not_mem_ids hnd hwt (by rw [eq_of_beq hws']; exact hne)

/-- Running `_reindex` on an already-sorted container renumbers its rows 1..N in
place. -/
theorem reindexRows_self [RowLike α] (t : List α) (s : Nat)
    (hnd : (t.map (fun v => rid v)).Nodup)
    (hsort : (rowsOf t s).Pairwise (OiLe (α := α))) :
    rowsOf (reindexRows t s) s = assignFrom 1 (rowsOf t s) := by
  rw [reindexRows_eq_map t s hnd, rowsOf_map _ _ _ (applyPairs_rsoa _),
    sortRows_of_pairwise hsort]
  unfold enum1
  rw [List.length_map]
  exact map_applyPairs_zip _ 1 (nodup_rid_rowsOf hnd s)

theorem reindexRows_map_rid [RowLike α] (t : List α) (s : Nat) :
    (reindexRows t s).map (fun v => rid v) = t.map (fun v => rid v) :=
  applyUpdates_map_rid t _

/-- After `_reindex`, the container's rows carry exactly the indices 1..N in
table order. -/
theorem reindexRows_contig [RowLike α] (t : List α) (s : Nat)
    (hnd : (t.map (fun v => rid v)).Nodup)
    (hsort : (rowsOf t s).Pairwise (OiLe (α := α))) :
    (rowsOf (reindexRows t s) s).map (fun v => roi v) =
      List.range' 1 (rowsOf (reindexRows t s) s).length := by
  rw [reindexRows_self t s hnd hsort, assignFrom_map_roi, assignFrom_length]

/-- Running `_reindex` on an already-contiguous container changes nothing at all. -/
theorem reindexRows_no_op [RowLike α] (t : List α) (s : Nat)
    (hnd : (t.map (fun v => rid v)).Nodup)
    (hcontig : (rowsOf t s).map (fun v => roi v) = List.range' 1 (rowsOf t s).length) :
    reindexRows t s = t := by
  have hle : (rowsOf t s).Pairwise (OiLe (α := α)) :=
    (pairwise_oiLt_of_contig hcontig).imp le_of_lt
  have hLmap : (rowsOf t s).map
      (applyPairs (enum1 ((rowsOf t s).map (fun v => rid v)))) = rowsOf t s := by
    unfold enum1
    rw [List.length_map, map_applyPairs_zip _ 1 (nodup_rid_rowsOf hnd s),
      assignFrom_of_map_roi hcontig]
  rw [reindexRows_eq_map t s hnd, sortRows_of_pairwise hle]
  apply map_eq_self
  intro v hv
  by_cases hs : rsoa v = s
  · exact eq_self_of_map_eq hLmap v (List.mem_filter.mpr ⟨hv, beq_iff_eq.mpr hs⟩)
  · apply applyPairs_of_not_mem
    rw [enum1_map_snd]
    have := rid_not_mem_ids hnd hv hs
    rw [sortRows_of_pairwise hle] at this
    exact this

/-- Idempotence: `_reindex` twice on any table with distinct row ids, whatever
indices the rows carry. -/
theorem reindexRows_idem [RowLike α] (t : List α) (s : Nat)
    (hnd : (t.map (fun v => rid v)).Nodup) :
    reindexRows (reindexRows t s) s = reindexRows t s := by
  have hndS : ((sortRows (rowsOf t s)).map (fun v => rid v)).Nodup :=
    nodup_rid_sortRows (nodup_rid_rowsOf hnd s)
  have hmapS : (sortRows (rowsOf t s)).map
      (applyPairs (enum1 ((sortRows (rowsOf t s)).map (fun v => rid v)))) =
      assignFrom 1 (sortRows (rowsOf t s)) := by
    unfold enum1
    rw [List.length_map]
    exact map_applyPairs_zip _ 1 hndS
  have ht' : reindexRows t s =
      t.map (applyPairs (enum1 ((sortRows (rowsOf t s)).map (fun v => rid v)))) :=
    reindexRows_eq_map t s hnd
  have hnd' : ((reindexRows t s).map (fun v => rid v)).Nodup := by
    rw [reindexRows_map_rid]
    exact hnd
  have hrows : rowsOf (reindexRows t s) s =
      (rowsOf t s).map (applyPairs (enum1 ((sortRows (rowsOf t s)).map (fun v => rid v)))) := by
    rw [ht', rowsOf_map _ _ _ (applyPairs_rsoa _)]
  have hstrict : ((sortRows (rowsOf t s)).map
      (applyPairs (enum1 ((sortRows (rowsOf t s)).map (fun v => rid v))))).Pairwise
      (OiLt (α := α)) := by
    rw [hmapS]
    apply pairwise_oiLt_of_contig
    rw [assignFrom_length]
    exact assignFrom_map_roi 1 _
  have hsortEq : sortRows (rowsOf (reindexRows t s) s) =
      (sortRows (rowsOf t s)).map
        (applyPairs (enum1 ((sortRows (rowsOf t s)).map (fun v => rid v)))) := by
    rw [hrows]
    exact eq_of_perm_of_oi_sorted
      ((sortRows_perm _).trans (((sortRows_perm (rowsOf t s)).map _).symm))
      (sortRows_pairwise _) hstrict
  have hids2 : (sortRows (rowsOf (reindexRows t s) s)).map (fun v => rid v) =
      (sortRows (rowsOf t s)).map (fun v => rid v) := by
    rw [hsortEq, List.map_map]
    exact List.map_congr_left (fun v _ => applyPairs_rid _ v)
  rw [reindexRows_eq_map (reindexRows t s) s hnd', hids2, ht', List.map_map]
  exact List.map_congr_left (fun v _ => applyPairs_idem _ v)

/-! ## Contiguity of `order_index`, preservation by the API operations -/

theorem rowsOf_append_pos [RowLike α] (t : List α) (v : α) {s : Nat} (h : rsoa v = s) :
    rowsOf (t ++ [v]) s = rowsOf t s ++ [v] := by
  unfold rowsOf
  rw [List.filter_append]
  congr 1
  simp [h]

theorem rowsOf_append_neg [RowLike α] (t : List α) (v : α) {s : Nat} (h : rsoa v ≠ s) :
    rowsOf (t ++ [v]) s = rowsOf t s := by
  unfold rowsOf
  rw [List.filter_append]
  have hv : List.filter (fun u => rsoa u == s) [v] = [] := by simp [h]
  rw [hv, List.append_nil]

/-- Appending a row whose index is one past its container's live count keeps
every container contiguous. -/
theorem contig_append [RowLike α] {t : List α} (v : α)
    (hcontig : ∀ s, (rowsOf t s).map (fun u => roi u) = List.range' 1 (rowsOf t s).length)
    (hoi : roi v = (rowsOf t (rsoa v)).length + 1) :
    ∀ s, (rowsOf (t ++ [v]) s).map (fun u => roi u) =
      List.range' 1 (rowsOf (t ++ [v]) s).length := by
  intro s
  by_cases hs : rsoa v = s
  · subst hs
    rw [rowsOf_append_pos _ _ rfl, List.map_append, List.length_append, hcontig]
    have hmapv : List.map (fun u => roi u) [v] = [roi v] := rfl
    have hlen1 : ([v] : List α).length = 1 := rfl
    rw [hmapv, hlen1, hoi, List.range'_concat]
    congr 2
    omega
  · rw [rowsOf_append_neg _ _ hs]
    exact hcontig s

/-- Deleting one row of container `s0` and reindexing `s0` keeps every
container contiguous. -/
theorem contig_delete_reindex [RowLike α] {t : List α} (s0 v0 : Nat)
    (hnd : (t.map (fun u => rid u)).Nodup)
    (hcontig : ∀ s, (rowsOf t s).map (fun u => roi u) = List.range' 1 (rowsOf t s).length)
    (hbelongs : ∀ u ∈ t, rid u = v0 → rsoa u = s0) :
    ∀ s, (rowsOf (reindexRows (t.filter (fun u => rid u != v0)) s0) s).map (fun u => roi u) =
      List.range' 1 ((rowsOf (reindexRows (t.filter (fun u => rid u != v0)) s0) s).length) := by
  intro s
  have hnd1 : ((t.filter (fun u => rid u != v0)).map (fun u => rid u)).Nodup :=
    List.Nodup.sublist (List.Sublist.map _ (List.filter_sublist t)) hnd
  by_cases hs : s = s0
  · subst hs
    apply reindexRows_contig _ _ hnd1
    rw [rowsOf_filter]
    exact (List.Pairwise.sublist (List.filter_sublist _)
      (pairwise_oiLt_of_contig (hcontig s))).imp le_of_lt
  · rw [reindexRows_other _ _ _ hnd1 hs, rowsOf_filter]
    have hself : (rowsOf t s).filter (fun u => rid u != v0) = rowsOf t s := by
      rw [List.filter_eq_self]
      intro u hu
      rcases List.mem_filter.mp hu with ⟨hut, hus⟩
      have hne : rid u ≠ v0 :=
        fun e => hs (by rw [← eq_of_beq hus]; exact hbelongs u hut e)
      simpa using hne
    rw [hself]
    exact hcontig s

/-- Well-formedness invariant of the SQLite state, maintained by every API
operation: row ids are below the `AUTOINCREMENT` counters and pairwise
distinct, every container's visits and activities carry exactly the indices
1..N in table order, and no two cell rows share a composite key. -/
structure Inv (db : DB) : Prop where
  vIdLt : ∀ v ∈ db.visits, v.id < db.nextVisitId
  vIdNodup : (db.visits.map (fun v => rid v)).Nodup
  aIdLt : ∀ a ∈ db.activities, a.id < db.nextActivityId
  aIdNodup : (db.activities.map (fun a => rid a)).Nodup
  vContig : ∀ s, (rowsOf db.visits s).map (fun v => roi v) =
    List.range' 1 (rowsOf db.visits s).length
  aContig : ∀ s, (rowsOf db.activities s).map (fun a => roi a) =
    List.range' 1 (rowsOf db.activities s).length
  cKeys : db.cells.Pairwise keyDistinct

theorem Inv_empty : Inv DB.empty := by
  refine ⟨?_, ?_, ?_, ?_, ?_, ?_, ?_⟩
  · intro v hv; cases hv
  · exact List.Pairwise.nil
  · intro a ha; cases ha
  · exact List.Pairwise.nil
  · intro s; rfl
  · intro s; rfl
  · exact List.Pairwise.nil

theorem Inv_create_soa {db : DB} (h : Inv db) (n : String) : Inv (create_soa db n).1 := by
  obtain ⟨h1, h2, h3, h4, h5, h6, h7⟩ := h
  exact ⟨h1, h2, h3, h4, h5, h6, h7⟩

theorem Inv_addVisit_state {db : DB} (h : Inv db) (s0 : Nat) (n : String)
    (rh : Option String) :
    Inv {db with
      visits := db.visits ++ [⟨db.nextVisitId, s0, n, pyOr rh n,
        (db.visits.filter (fun v => v.soa_id == s0)).length + 1⟩],
      nextVisitId := db.nextVisitId + 1} := by
  obtain ⟨h1, h2, h3, h4, h5, h6, h7⟩ := h
  refine ⟨?_, ?_, h3, h4, ?_, h6, h7⟩
  · intro v hv
    rcases List.mem_append.mp hv with hv | hv
    · exact Nat.lt_trans (h1 v hv) (Nat.lt_succ_self _)
    · rcases List.mem_singleton.mp hv with rfl
      exact Nat.lt_succ_self _
  · rw [List.map_append, List.nodup_append]
    refine ⟨h2, List.nodup_singleton _, ?_⟩
    intro x hx hx'
    rcases List.mem_map.mp hx with ⟨u, hu, rfl⟩
    have he : rid u = db.nextVisitId := by simpa using hx'
    have he' : u.id = db.nextVisitId := he
    have hlt : u.id < db.nextVisitId := h1 u hu
    omega
  · exact contig_append _ h5 rfl

theorem Inv_addActivity_state {db : DB} (h : Inv db) (s0 : Nat) (n : String) :
    Inv {db with
      activities := db.activities ++ [⟨db.nextActivityId, s0, n,
        (db.activities.filter (fun a => a.soa_id == s0)).length + 1⟩],
      nextActivityId := db.nextActivityId + 1} := by
  obtain ⟨h1, h2, h3, h4, h5, h6, h7⟩ := h
  refine ⟨h1, h2, ?_, ?_, h5, ?_, h7⟩
  · intro a ha
    rcases List.mem_append.mp ha with ha | ha
    · exact Nat.lt_trans (h3 a ha) (Nat.lt_succ_self _)
    · rcases List.mem_singleton.mp ha with rfl
      exact Nat.lt_succ_self _
  · rw [List.map_append, List.nodup_append]
    refine ⟨h4, List.nodup_singleton _, ?_⟩
    intro x hx hx'
    rcases List.mem_map.mp hx with ⟨u, hu, rfl⟩
    have he : rid u = db.nextActivityId := by simpa using hx'
    have he' : u.id = db.nextActivityId := he
    have hlt : u.id < db.nextActivityId := h3 u hu
    omega
  · exact contig_append _ h6 rfl

theorem Inv_setCell_update {db : DB} (h : Inv db) {st : String} {row : Cell} :
    Inv {db with cells := db.cells.map (fun c =>
      if c.id == row.id then {c with status := st} else c)} := by
  obtain ⟨h1, h2, h3, h4, h5, h6, h7⟩ := h
  refine ⟨h1, h2, h3, h4, h5, h6, ?_⟩
  refine List.pairwise_map.mpr (h7.imp ?_)
  intro a b hab hcon
  apply hab
  have ea : ∀ c : Cell, (if c.id == row.id then {c with status := st} else c).soa_id = c.soa_id := by
    intro c
    by_cases hc : c.id == row.id
    · rw [if_pos hc]
    · rw [if_neg hc]
  have ev : ∀ c : Cell, (if c.id == row.id then {c with status := st} else c).visit_id = c.visit_id := by
    intro c
    by_cases hc : c.id == row.id
    · rw [if_pos hc]
    · rw [if_neg hc]
  have eact : ∀ c : Cell, (if c.id == row.id then {c with status := st} else c).activity_id = c.activity_id := by
    intro c
    by_cases hc : c.id == row.id
    · rw [if_pos hc]
    · rw [if_neg hc]
  exact ⟨by rw [← ea a, ← ea b]; exact hcon.1,
    by rw [← ev a, ← ev b]; exact hcon.2.1,
    by rw [← eact a, ← eact b]; exact hcon.2.2⟩

theorem Inv_setCell_insert {db : DB} (h : Inv db) {s0 v0 a0 : Nat} {st : String}
    (hf : db.cells.find? (fun c =>
      c.soa_id == s0 && c.visit_id == v0 && c.activity_id == a0) = none) :
    Inv {db with cells := db.cells ++ [⟨db.nextCellId, s0, v0, a0, st⟩],
                 nextCellId := db.nextCellId + 1} := by
  obtain ⟨h1, h2, h3, h4, h5, h6, h7⟩ := h
  refine ⟨h1, h2, h3, h4, h5, h6, ?_⟩
  rw [List.pairwise_append]
  refine ⟨h7, by simp, ?_⟩
  intro c hc b hb
  rcases List.mem_singleton.mp hb with rfl
  intro hcon
  have hnp := List.find?_eq_none.mp hf c hc
  apply hnp
  simp only [Bool.and_eq_true, beq_iff_eq]
  exact ⟨⟨hcon.1, hcon.2.1⟩, hcon.2.2⟩

theorem Inv_deleteVisit_state {db : DB} (h : Inv db) {s0 v0 : Nat}
    (hany : db.visits.any (fun v => v.id == v0 && v.soa_id == s0) = true) :
    Inv (_reindex {db with
      cells := db.cells.filter (fun c => !(c.soa_id == s0 && c.visit_id == v0)),
      visits := db.visits.filter (fun v => v.id != v0)} .visit s0) := by
  obtain ⟨h1, h2, h3, h4, h5, h6, h7⟩ := h
  rcases List.any_eq_true.mp hany with ⟨w, hw, hwp⟩
  rw [Bool.and_eq_true, beq_iff_eq, beq_iff_eq] at hwp
  have hbelongs : ∀ u ∈ db.visits, rid u = v0 → rsoa u = s0 := by
    intro u hu he
    have huw : u = w := List.inj_on_of_nodup_map h2 hu hw (by rw [he, ← hwp.1]; rfl)
    rw [huw]
    exact hwp.2
  refine ⟨?_, ?_, h3, h4, ?_, h6, ?_⟩
  · intro v hv
    have hvid : rid v ∈
        (reindexRows (db.visits.filter (fun u => u.id != v0)) s0).map (fun u => rid u) :=
      List.mem_map.mpr ⟨v, hv, rfl⟩
    rw [reindexRows_map_rid] at hvid
    rcases List.mem_map.mp hvid with ⟨u, hu, huid⟩
    have hu' : u ∈ db.visits := List.mem_of_mem_filter hu
    have hlt : u.id < db.nextVisitId := h1 u hu'
    have he : u.id = v.id := huid
    show v.id < db.nextVisitId
    omega
  · show ((reindexRows (db.visits.filter (fun v => v.id != v0)) s0).map
        (fun v => rid v)).Nodup
    rw [reindexRows_map_rid]
    exact List.Nodup.sublist (List.Sublist.map _ (List.filter_sublist _)) h2
  · exact contig_delete_reindex s0 v0 h2 h5 hbelongs
  · exact List.Pairwise.sublist (List.filter_sublist _) h7

theorem Inv_deleteActivity_state {db : DB} (h : Inv db) {s0 a0 : Nat}
    (hany : db.activities.any (fun a => a.id == a0 && a.soa_id == s0) = true) :
    Inv (_reindex {db with
      cells := db.cells.filter (fun c => !(c.soa_id == s0 && c.activity_id == a0)),
      activities := db.activities.filter (fun a => a.id != a0)} .activity s0) := by
  obtain ⟨h1, h2, h3, h4, h5, h6, h7⟩ := h
  rcases List.any_eq_true.mp hany with ⟨w, hw, hwp⟩
  rw [Bool.and_eq_true, beq_iff_eq, beq_iff_eq] at hwp
  have hbelongs : ∀ u ∈ db.activities, rid u = a0 → rsoa u = s0 := by
    intro u hu he
    have huw : u = w := List.inj_on_of_nodup_map h4 hu hw (by rw [he, ← hwp.1]; rfl)
    rw [huw]
    exact hwp.2
  refine ⟨h1, h2, ?_, ?_, h5, ?_, ?_⟩
  · intro a ha
    have haid : rid a ∈
        (reindexRows (db.activities.filter (fun u => u.id != a0)) s0).map (fun u => rid u) :=
      List.mem_map.mpr ⟨a, ha, rfl⟩
    rw [reindexRows_map_rid] at haid
    rcases List.mem_map.mp haid with ⟨u, hu, huid⟩
    have hu' : u ∈ db.activities := List.mem_of_mem_filter hu
    have hlt : u.id < db.nextActivityId := h3 u hu'
    have he : u.id = a.id := huid
    show a.id < db.nextActivityId
    omega
  · show ((reindexRows (db.activities.filter (fun a => a.id != a0)) s0).map
        (fun a => rid a)).Nodup
    rw [reindexRows_map_rid]
    exact List.Nodup.sublist (List.Sublist.map _ (List.filter_sublist _)) h4
  · exact contig_delete_reindex s0 a0 h4 h6 hbelongs
  · exact List.Pairwise.sublist (List.filter_sublist _) h7

/-- Every handler preserves the invariant (a handler that raises leaves the
state untouched). -/
theorem Inv_step {db : DB} (h : Inv db) (op : Op) : Inv (step db op) := by
  cases op with
  | createSoa n => exact Inv_create_soa h n
  | addVisit s0 n rh =>
    show Inv (match add_visit db s0 n rh with | .ok (db', _) => db' | .error _ => db)
    unfold add_visit
    by_cases hex : _soa_exists db s0
    · rw [if_pos hex]
      exact Inv_addVisit_state h s0 n rh
    · rw [if_neg hex]
      exact h
  | addActivity s0 n =>
    show Inv (match add_activity db s0 n with | .ok (db', _) => db' | .error _ => db)
    unfold add_activity
    by_cases hex : _soa_exists db s0
    · rw [if_pos hex]
      exact Inv_addActivity_state h s0 n
    · rw [if_neg hex]
      exact h
  | setCell s0 v0 a0 st =>
    show Inv (match set_cell db s0 v0 a0 st with | .ok (db', _) => db' | .error _ => db)
    unfold set_cell
    by_cases hex : _soa_exists db s0
    · rw [if_pos hex]
      cases hf : db.cells.find? (fun c =>
          c.soa_id == s0 && c.visit_id == v0 && c.activity_id == a0) with
      | some row => exact Inv_setCell_update h
      | none => exact Inv_setCell_insert h hf
    · rw [if_neg hex]
      exact h
  | deleteVisit s0 v0 =>
    show Inv (match delete_visit db s0 v0 with | .ok db' => db' | .error _ => db)
    unfold delete_visit
    by_cases hex : _soa_exists db s0
    · rw [if_pos hex]
      by_cases hany : db.visits.any (fun v => v.id == v0 && v.soa_id == s0) = true
      · rw [if_pos hany]
        exact Inv_deleteVisit_state h hany
      · rw [if_neg hany]
        exact h
    · rw [if_neg hex]
      exact h
  | deleteActivity s0 a0 =>
    show Inv (match delete_activity db s0 a0 with | .ok db' => db' | .error _ => db)
    unfold delete_activity
    by_cases hex : _soa_exists db s0
    · rw [if_pos hex]
      by_cases hany : db.activities.any (fun a => a.id == a0 && a.soa_id == s0) = true
      · rw [if_pos hany]
        exact Inv_deleteActivity_state h hany
      · rw [if_neg hany]
        exact h
    · rw [if_neg hex]
      exact h

theorem Inv_run_aux (ops : List Op) : ∀ db, Inv db → Inv (run db ops) := by
  induction ops with
  | nil => intro db h; exact h
  | cons op ops ih => intro db h; exact ih (step db op) (Inv_step h op)

/-- Every database reachable through the API from the empty database is
well-formed. -/
theorem Inv_run (ops : List Op) : Inv (run DB.empty ops) :=
  Inv_run_aux ops DB.empty Inv_empty

/-! ## Serializer lemmas -/

/-- If no two entries of a list both satisfy `p`, filtering by `p` at a known
satisfier gives exactly that entry. -/
theorem filter_pred_unique {α : Type} {p : α → Bool} {l : List α}
    (hp : l.Pairwise (fun a b => ¬(p a = true ∧ p b = true)))
    {c : α} (hc : c ∈ l) (hcp : p c = true) : l.filter p = [c] := by
  induction l with
  | nil => cases hc
  | cons d l ih =>
    rcases List.pairwise_cons.mp hp with ⟨hd, hl⟩
    rcases List.mem_cons.mp hc with rfl | hc'
    · rw [List.filter_cons_of_pos hcp]
      congr 1
      rw [List.filter_eq_nil_iff]
      exact fun b hb hbp => hd b hb ⟨hcp, hbp⟩
    · rw [List.filter_cons_of_neg, ih hl hc']
      exact fun hdp => hd c hc' ⟨hdp, hcp⟩

theorem length_filter_le_one {α : Type} {p : α → Bool} {l : List α}
    (hp : l.Pairwise (fun a b => ¬(p a = true ∧ p b = true))) :
    (l.filter p).length ≤ 1 := by
  induction l with
  | nil => simp
  | cons a l ih =>
    rcases List.pairwise_cons.mp hp with ⟨ha, hl⟩
    by_cases hpa : p a = true
    · rw [List.filter_cons_of_pos hpa]
      have hnil : l.filter p = [] := by
        rw [List.filter_eq_nil_iff]
        exact fun b hb hbp => ha b hb ⟨hpa, hbp⟩
      rw [hnil]
      simp
    · rw [List.filter_cons_of_neg hpa]
      exact ih hl

theorem perm_eq_of_length_le_one {α : Type} {l1 l2 : List α} (h : l1.Perm l2)
    (hl : l1.length ≤ 1) : l1 = l2 := by
  cases l1 with
  | nil => exact (h.symm.eq_nil).symm
  | cons a l =>
    cases l with
    | nil => exact (List.perm_singleton.mp h.symm).symm
    | cons b m => simp at hl

theorem sortRows_ne_nil [RowLike α] {l : List α} (h : l ≠ []) : sortRows l ≠ [] := by
  intro hs
  apply h
  have hperm := (sortRows_perm l).symm
  rw [hs] at hperm
  exact hperm.eq_nil

/-- The spec's cell lookup: "the status of the unique Cell matching (that
Visit, this Activity) if one exists, else an empty string". -/
def specLookup (cells : List Cell) (vid aid : Nat) : String :=
  match cells.filter (fun c => c.visit_id == vid && c.activity_id == aid) with
  | [c] => c.status
  | _ => ""

/-- The wide table exactly as §4.4 of the spec words it: header row
`["Activity"] + [raw_header if present else name]` over visits in position
order, then one row per activity in position order, densified via
`specLookup`. -/
def specWideTable (visits : List Visit) (activities : List Activity)
    (cells : List Cell) : List (List String) :=
  ("Activity" :: visits.map (fun v => if v.raw_header ≠ "" then v.raw_header else v.name)) ::
  activities.map (fun a => a.name :: visits.map (fun v => specLookup cells v.id a.id))

/-- With at most one cell per (visit, activity) key, the code's first-match
lookup agrees with the spec's unique-cell lookup. -/
theorem cellLookup_eq_spec {cells : List Cell} {vid aid : Nat}
    (hp : cells.Pairwise (fun a b =>
      ¬((a.visit_id == vid && a.activity_id == aid) = true ∧
        (b.visit_id == vid && b.activity_id == aid) = true))) :
    cellLookup cells vid aid = specLookup cells vid aid := by
  unfold cellLookup specLookup
  cases hf : cells.find? (fun c => c.visit_id == vid && c.activity_id == aid) with
  | none =>
    have hnil : cells.filter (fun c => c.visit_id == vid && c.activity_id == aid) = [] := by
      rw [List.filter_eq_nil_iff]
      exact fun c hc => List.find?_eq_none.mp hf c hc
    rw [hnil]
  | some c0 =>
    have hmem : c0 ∈ cells := List.mem_of_find?_eq_some hf
    have hp0 : (c0.visit_id == vid && c0.activity_id == aid) = true :=
      @List.find?_some Cell (fun c => c.visit_id == vid && c.activity_id == aid) c0 cells hf
    have hone : cells.filter (fun c => c.visit_id == vid && c.activity_id == aid) = [c0] :=
      filter_pred_unique hp hmem hp0
    rw [hone]

/-- Cells of one container with pairwise-distinct composite keys admit at most
one match per (visit, activity) pair. -/
theorem pairwise_vapred_of_keyDistinct {cells : List Cell} {s : Nat}
    (hkeys : cells.Pairwise keyDistinct) (hsoa : ∀ c ∈ cells, c.soa_id = s)
    (vid aid : Nat) :
    cells.Pairwise (fun a b =>
      ¬((a.visit_id == vid && a.activity_id == aid) = true ∧
        (b.visit_id == vid && b.activity_id == aid) = true)) := by
  refine hkeys.imp_of_mem ?_
  intro a b ha hb hk hcon
  obtain ⟨hpa, hpb⟩ := hcon
  simp only [Bool.and_eq_true, beq_iff_eq] at hpa hpb
  exact hk ⟨(hsoa a ha).trans (hsoa b hb).symm,
    hpa.1.trans hpb.1.symm, hpa.2.trans hpb.2.symm⟩

theorem cellsOf_soa (db : DB) (s : Nat) :
    ∀ c ∈ db.cells.filter (fun c => c.soa_id == s), c.soa_id = s := by
  intro c hc
  exact eq_of_beq (List.mem_filter.mp hc).2

/-! ## The upsert of `set_cell` -/

theorem statusUpdate_soa (rid0 : Nat) (st : String) (c : Cell) :
    (if c.id == rid0 then {c with status := st} else c).soa_id = c.soa_id := by
  by_cases hc : c.id == rid0
  · rw [if_pos hc]
  · rw [if_neg hc]

theorem statusUpdate_visit (rid0 : Nat) (st : String) (c : Cell) :
    (if c.id == rid0 then {c with status := st} else c).visit_id = c.visit_id := by
  by_cases hc : c.id == rid0
  · rw [if_pos hc]
  · rw [if_neg hc]

theorem statusUpdate_act (rid0 : Nat) (st : String) (c : Cell) :
    (if c.id == rid0 then {c with status := st} else c).activity_id = c.activity_id := by
  by_cases hc : c.id == rid0
  · rw [if_pos hc]
  · rw [if_neg hc]

theorem pairwise_keyDistinct_map_status (l : List Cell) (rid0 : Nat) (st : String)
    (h : l.Pairwise keyDistinct) :
    (l.map (fun c => if c.id == rid0 then {c with status := st} else c)).Pairwise
      keyDistinct := by
  have himp : ∀ a b : Cell, keyDistinct a b →
      keyDistinct (if a.id == rid0 then {a with status := st} else a)
        (if b.id == rid0 then {b with status := st} else b) := by
    intro a b hab
    unfold keyDistinct at hab ⊢
    intro hcon
    rw [statusUpdate_soa, statusUpdate_visit, statusUpdate_act, statusUpdate_soa,
      statusUpdate_visit, statusUpdate_act] at hcon
    exact hab hcon
  exact List.pairwise_map.mpr (h.imp (fun hab => himp _ _ hab))

theorem pairwise_keyDistinct_append {l : List Cell} {s0 v0 a0 cid : Nat} {st : String}
    (h : l.Pairwise keyDistinct)
    (hf : l.find? (fun c =>
      c.soa_id == s0 && c.visit_id == v0 && c.activity_id == a0) = none) :
    (l ++ [(⟨cid, s0, v0, a0, st⟩ : Cell)]).Pairwise keyDistinct := by
  rw [List.pairwise_append]
  refine ⟨h, by simp, ?_⟩
  intro c hc b hb
  rcases List.mem_singleton.mp hb with rfl
  unfold keyDistinct
  intro hcon
  apply List.find?_eq_none.mp hf c hc
  simp only [Bool.and_eq_true, beq_iff_eq]
  exact ⟨⟨hcon.1, hcon.2.1⟩, hcon.2.2⟩

/-- Full characterisation of a successful upsert on a well-keyed cell store:
the returned status is the one sent, keys stay pairwise distinct, afterwards
exactly one cell carries the requested key — id `cid`, status `st` — and `cid`
is the id of whatever cell held that key before (if any). -/
theorem set_cell_spec {db : DB} (hkeys : db.cells.Pairwise keyDistinct)
    {s0 v0 a0 : Nat} {st : String} {db' : DB} {cid : Nat} {r : String}
    (hok : set_cell db s0 v0 a0 st = .ok (db', cid, r)) :
    r = st ∧ db'.cells.Pairwise keyDistinct ∧
    db'.cells.filter (fun c => c.soa_id == s0 && c.visit_id == v0 && c.activity_id == a0)
      = [(⟨cid, s0, v0, a0, st⟩ : Cell)] ∧
    (∀ c ∈ db.cells,
      (c.soa_id == s0 && c.visit_id == v0 && c.activity_id == a0) = true →
      c.id = cid) := by
  unfold set_cell at hok
  by_cases hex : _soa_exists db s0
  · rw [if_pos hex] at hok
    cases hf : db.cells.find? (fun c =>
        c.soa_id == s0 && c.visit_id == v0 && c.activity_id == a0) with
    | some row =>
      rw [hf] at hok
      injection hok with h
      injection h with h1 h2
      injection h2 with h2a h2b
      subst h1
      subst h2a
      subst h2b
      have hrowmem : row ∈ db.cells := List.mem_of_find?_eq_some hf
      have hrowp : (row.soa_id == s0 && row.visit_id == v0 && row.activity_id == a0) = true :=
        @List.find?_some Cell
          (fun c => c.soa_id == s0 && c.visit_id == v0 && c.activity_id == a0) row db.cells hf
      have hp : db.cells.Pairwise (fun a b =>
          ¬((a.soa_id == s0 && a.visit_id == v0 && a.activity_id == a0) = true ∧
            (b.soa_id == s0 && b.visit_id == v0 && b.activity_id == a0) = true)) := by
        refine hkeys.imp ?_
        intro a b hab hcon
        obtain ⟨hpa, hpb⟩ := hcon
        simp only [Bool.and_eq_true, beq_iff_eq] at hpa hpb
        exact hab ⟨hpa.1.1.trans hpb.1.1.symm, hpa.1.2.trans hpb.1.2.symm,
          hpa.2.trans hpb.2.symm⟩
      have hfil : db.cells.filter (fun c =>
          c.soa_id == s0 && c.visit_id == v0 && c.activity_id == a0) = [row] :=
        filter_pred_unique hp hrowmem hrowp
      refine ⟨rfl, pairwise_keyDistinct_map_status _ _ _ hkeys, ?_, ?_⟩
      · show (db.cells.map (fun c =>
            if c.id == row.id then {c with status := st} else c)).filter
            (fun c => c.soa_id == s0 && c.visit_id == v0 && c.activity_id == a0)
            = [(⟨row.id, s0, v0, a0, st⟩ : Cell)]
        rw [List.filter_map]
        have hcong : db.cells.filter ((fun c =>
            c.soa_id == s0 && c.visit_id == v0 && c.activity_id == a0) ∘
              (fun c => if c.id == row.id then {c with status := st} else c)) =
            db.cells.filter (fun c =>
              c.soa_id == s0 && c.visit_id == v0 && c.activity_id == a0) := by
          apply List.filter_congr
          intro c _
          show ((if c.id == row.id then {c with status := st} else c).soa_id == s0 &&
            (if c.id == row.id then {c with status := st} else c).visit_id == v0 &&
            (if c.id == row.id then {c with status := st} else c).activity_id == a0) = _
          rw [statusUpdate_soa, statusUpdate_visit, statusUpdate_act]
        rw [hcong, hfil]
        simp only [Bool.and_eq_true, beq_iff_eq] at hrowp
        obtain ⟨⟨hs, hv⟩, ha⟩ := hrowp
        show [if row.id == row.id then {row with status := st} else row] = _
        rw [if_pos (beq_self_eq_true row.id)]
        obtain ⟨ri, rs, rv, ra, rst⟩ := row
        simp only at hs hv ha
        subst hs
        subst hv
        subst ha
        rfl
      · intro c hc hcp
        have hcf : c ∈ db.cells.filter (fun c =>
            c.soa_id == s0 && c.visit_id == v0 && c.activity_id == a0) :=
          List.mem_filter.mpr ⟨hc, hcp⟩
        rw [hfil] at hcf
        rw [List.mem_singleton.mp hcf]
    | none =>
      rw [hf] at hok
      injection hok with h
      injection h with h1 h2
      injection h2 with h2a h2b
      subst h1
      subst h2a
      subst h2b
      refine ⟨rfl, pairwise_keyDistinct_append hkeys hf, ?_, ?_⟩
      · show (db.cells ++ [(⟨db.nextCellId, s0, v0, a0, st⟩ : Cell)]).filter
            (fun c => c.soa_id == s0 && c.visit_id == v0 && c.activity_id == a0)
            = [(⟨db.nextCellId, s0, v0, a0, st⟩ : Cell)]
        rw [List.filter_append]
        have hnil : db.cells.filter (fun c =>
            c.soa_id == s0 && c.visit_id == v0 && c.activity_id == a0) = [] :=
          List.filter_eq_nil_iff.mpr (List.find?_eq_none.mp hf)
        rw [hnil, List.filter_cons_of_pos (by simp)]
        rfl
      · intro c hc hcp
        exact absurd hcp (List.find?_eq_none.mp hf c hc)
  · rw [if_neg hex] at hok
    exact Except.noConfusion hok

/-- Unfolded form of `_generate_wide_csv` (the code reads the matrix via
`_fetch_matrix` and either raises or writes header plus one row per
activity). -/
theorem generate_wide_csv_eq (db : DB) (s : Nat) :
    _generate_wide_csv db s =
      if (sortRows (rowsOf db.visits s)).isEmpty ||
          (sortRows (rowsOf db.activities s)).isEmpty then .error .invalidState
      else .ok (("Activity" :: (sortRows (rowsOf db.visits s)).map
          (fun v => if v.raw_header = "" then v.name else v.raw_header)) ::
        (sortRows (rowsOf db.activities s)).map (fun a =>
          a.name :: (sortRows (rowsOf db.visits s)).map (fun v =>
            cellLookup (db.cells.filter (fun c => c.soa_id == s)) v.id a.id))) := rfl

theorem isEmpty_false_of_ne_nil {α : Type} {l : List α} (h : l ≠ []) :
    l.isEmpty = false := by
  cases hl : l.isEmpty
  · rfl
  · exact absurd (List.isEmpty_iff.mp hl) h

/-! ## The claims -/

/-- C1: for every container and every finite sequence of operations starting
from the empty store, the multiset of `order_index` values of the container's
live visits (resp. activities) is duplicate-free and its underlying set is
exactly {1, ..., N} where N is the live count. -/
theorem C1_contiguity (ops : List Op) (s : Nat) :
    (((visitsOf (run DB.empty ops) s).map (fun v => v.order_index)).Nodup ∧
      ∀ k, k ∈ (visitsOf (run DB.empty ops) s).map (fun v => v.order_index) ↔
        (1 ≤ k ∧ k ≤ (visitsOf (run DB.empty ops) s).length)) ∧
    (((activitiesOf (run DB.empty ops) s).map (fun a => a.order_index)).Nodup ∧
      ∀ k, k ∈ (activitiesOf (run DB.empty ops) s).map (fun a => a.order_index) ↔
        (1 ≤ k ∧ k ≤ (activitiesOf (run DB.empty ops) s).length)) := by
  have hv : (visitsOf (run DB.empty ops) s).map (fun v => v.order_index) =
      List.range' 1 (visitsOf (run DB.empty ops) s).length := (Inv_run ops).vContig s
  have ha : (activitiesOf (run DB.empty ops) s).map (fun a => a.order_index) =
      List.range' 1 (activitiesOf (run DB.empty ops) s).length := (Inv_run ops).aContig s
  refine ⟨⟨?_, ?_⟩, ?_, ?_⟩
  · rw [hv]
    exact List.nodup_range' _ _
  · intro k
    rw [hv, List.mem_range'_1]
    omega
  · rw [ha]
    exact List.nodup_range' _ _
  · intro k
    rw [ha, List.mem_range'_1]
    omega

/-- C2: in every reachable store at most one live cell carries any composite
(container, visit, activity) key; and two successive upserts on the same key
leave exactly one cell for that key, both return that cell's identity, and
its status is the second one sent. -/
theorem C2_upsert_unique :
    (∀ ops : List Op, (run DB.empty ops).cells.Pairwise keyDistinct) ∧
    (∀ (db : DB) (s0 v0 a0 : Nat) (s1 s2 : String) (db1 db2 : DB)
        (cid1 cid2 : Nat) (r1 r2 : String),
      db.cells.Pairwise keyDistinct →
      set_cell db s0 v0 a0 s1 = .ok (db1, cid1, r1) →
      set_cell db1 s0 v0 a0 s2 = .ok (db2, cid2, r2) →
      cid2 = cid1 ∧ r2 = s2 ∧
        db2.cells.filter (fun c =>
          c.soa_id == s0 && c.visit_id == v0 && c.activity_id == a0)
          = [(⟨cid1, s0, v0, a0, s2⟩ : Cell)]) := by
  constructor
  · intro ops
    exact (Inv_run ops).cKeys
  · intro db s0 v0 a0 s1 s2 db1 db2 cid1 cid2 r1 r2 hkeys hc1 hc2
    obtain ⟨_, hk1, hf1, _⟩ := set_cell_spec hkeys hc1
    obtain ⟨hr2, _, hf2, hid2⟩ := set_cell_spec hk1 hc2
    have hmem : (⟨cid1, s0, v0, a0, s1⟩ : Cell) ∈ db1.cells := by
      have hmf : (⟨cid1, s0, v0, a0, s1⟩ : Cell) ∈ db1.cells.filter (fun c =>
          c.soa_id == s0 && c.visit_id == v0 && c.activity_id == a0) := by
        rw [hf1]
        exact List.mem_singleton_self _
      exact List.mem_of_mem_filter hmf
    have hcid : cid1 = cid2 := hid2 _ hmem (by simp)
    refine ⟨hcid.symm, hr2, ?_⟩
    rw [hf2, hcid]

/-- One freshly created container (id 1), nothing else. -/
def dbOne : DB := (create_soa DB.empty "A").1

def dbOneX : DB := {dbOne with cells := [⟨1, 1, 1, 1, "X"⟩], nextCellId := 2}

def dbOneBlank : DB := {dbOne with cells := [⟨1, 1, 1, 1, ""⟩], nextCellId := 2}

theorem C2_upsert_unique_witness :
    (run DB.empty [Op.createSoa "A"]).cells.Pairwise keyDistinct ∧
    (1 = 1 ∧ ("" : String) = "" ∧
      dbOneBlank.cells.filter (fun c =>
        c.soa_id == 1 && c.visit_id == 1 && c.activity_id == 1)
        = [(⟨1, 1, 1, 1, ""⟩ : Cell)]) :=
  ⟨C2_upsert_unique.1 [Op.createSoa "A"],
   C2_upsert_unique.2 dbOne 1 1 1 "X" "" dbOneX dbOneBlank 1 1 "X" ""
     List.Pairwise.nil rfl rfl⟩

def dbOneDangling : DB := {dbOne with cells := [⟨1, 1, 5, 7, "X"⟩], nextCellId := 2}

/-- C3 counterexample: container 1 exists, neither visit 5 nor activity 7
exists anywhere, yet `set_cell` succeeds and mutates the cell store instead of
failing with `NotFound`. -/
theorem C3_counterexample :
    _soa_exists dbOne 1 = true ∧
    dbOne.visits.any (fun v => v.id == 5 && v.soa_id == 1) = false ∧
    dbOne.activities.any (fun a => a.id == 7 && a.soa_id == 1) = false ∧
    set_cell dbOne 1 5 7 "X" = .ok (dbOneDangling, 1, "X") ∧
    dbOneDangling.cells ≠ dbOne.cells := by
  refine ⟨rfl, rfl, rfl, rfl, ?_⟩
  decide

/-- C3 (amended): `set_cell` validates only the container: it fails with
`NotFound` exactly when the container does not exist, and whenever the
container exists it succeeds — creating or updating a cell — regardless of
whether `visit_id`/`activity_id` identify live entities of the container. -/
theorem C3_amended (db : DB) (s0 v0 a0 : Nat) (st : String) :
    (_soa_exists db s0 = false → set_cell db s0 v0 a0 st = .error .notFound) ∧
    (_soa_exists db s0 = true →
      ∃ db' cid, set_cell db s0 v0 a0 st = .ok (db', cid, st)) := by
  constructor
  · intro hex
    unfold set_cell
    rw [if_neg (by rw [hex]; exact Bool.false_ne_true)]
  · intro hex
    unfold set_cell
    rw [if_pos hex]
    cases hf : db.cells.find? (fun c =>
        c.soa_id == s0 && c.visit_id == v0 && c.activity_id == a0) with
    | some row => exact ⟨_, _, rfl⟩
    | none => exact ⟨_, _, rfl⟩

theorem C3_amended_witness :
    set_cell DB.empty 1 5 7 "X" = Except.error Err.notFound ∧
    (∃ db' cid, set_cell dbOne 1 5 7 "X" = Except.ok (db', cid, "X")) :=
  ⟨(C3_amended DB.empty 1 5 7 "X").1 rfl, (C3_amended dbOne 1 5 7 "X").2 rfl⟩

/-- C5: for an existing container, serialization fails — and fails with
`InvalidState` — exactly when the container's visit list or activity list is
empty; with both non-empty it succeeds and produces a table. -/
theorem C5_export_precondition (db : DB) (s : Nat) (_hex : _soa_exists db s = true) :
    ((_generate_wide_csv db s = .error .invalidState) ↔
      (visitsOf db s = [] ∨ activitiesOf db s = [])) ∧
    (∀ e, _generate_wide_csv db s = .error e → e = .invalidState) ∧
    ((visitsOf db s ≠ [] ∧ activitiesOf db s ≠ []) →
      ∃ t, _generate_wide_csv db s = .ok t) := by
  have herr : (visitsOf db s = [] ∨ activitiesOf db s = []) →
      _generate_wide_csv db s = .error .invalidState := by
    intro h
    rw [generate_wide_csv_eq]
    have hcond : ((sortRows (rowsOf db.visits s)).isEmpty ||
        (sortRows (rowsOf db.activities s)).isEmpty) = true := by
      rcases h with h | h
      · have hnil : rowsOf db.visits s = [] := h
        rw [hnil]
        rfl
      · have hnil : rowsOf db.activities s = [] := h
        rw [hnil]
        simp
        exact Or.inr rfl
    rw [if_pos hcond]
  have hok : visitsOf db s ≠ [] → activitiesOf db s ≠ [] →
      ∃ t, _generate_wide_csv db s = .ok t := by
    intro hv ha
    rw [generate_wide_csv_eq]
    have hcond : ((sortRows (rowsOf db.visits s)).isEmpty ||
        (sortRows (rowsOf db.activities s)).isEmpty) = false :=
      Bool.or_eq_false_iff.mpr ⟨isEmpty_false_of_ne_nil (sortRows_ne_nil hv),
        isEmpty_false_of_ne_nil (sortRows_ne_nil ha)⟩
    rw [if_neg (by rw [hcond]; exact Bool.false_ne_true)]
    exact ⟨_, rfl⟩
  refine ⟨⟨?_, fun h => herr h⟩, ?_, fun h => hok h.1 h.2⟩
  · intro hgen
    by_cases hv : visitsOf db s = []
    · exact Or.inl hv
    by_cases ha : activitiesOf db s = []
    · exact Or.inr ha
    obtain ⟨t, ht⟩ := hok hv ha
    rw [ht] at hgen
    exact Except.noConfusion hgen
  · intro e hgen
    by_cases hv : visitsOf db s = []
    · have h1 := herr (Or.inl hv)
      rw [h1] at hgen
      injection hgen with h2
      exact h2.symm
    by_cases ha : activitiesOf db s = []
    · have h1 := herr (Or.inr ha)
      rw [h1] at hgen
      injection hgen with h2
      exact h2.symm
    obtain ⟨t, ht⟩ := hok hv ha
    rw [ht] at hgen
    exact Except.noConfusion hgen

/-- Scenario D: a container with one activity and zero visits. -/
def dbNoVisit : DB := run DB.empty [Op.createSoa "A", Op.addActivity 1 "Consent"]

theorem C5_export_precondition_witness :
    _generate_wide_csv dbNoVisit 1 = Except.error Err.invalidState :=
  (C5_export_precondition dbNoVisit 1 rfl).1.mpr (Or.inl rfl)

/-- Ops of the C6 counterexample: container 2's cell is attached to
container 1's visit through the missing ownership check of `set_cell`. -/
def opsC6 : List Op := [Op.createSoa "A", Op.createSoa "B", Op.addVisit 1 "v" none,
  Op.addActivity 2 "a", Op.setCell 2 1 1 "X"]

def dbC6 : DB := run DB.empty opsC6

def dbC6' : DB := run DB.empty (opsC6 ++ [Op.deleteVisit 1 1])

/-- C6 counterexample: visit 1 is a live visit of container 1;
`delete_visit` succeeds, yet a live cell (of container 2) still references
visit 1 — the cascade only deletes cells of the stated container. -/
theorem C6_counterexample :
    dbC6.visits.any (fun v => v.id == 1 && v.soa_id == 1) = true ∧
    delete_visit dbC6 1 1 = .ok dbC6' ∧
    dbC6'.cells.any (fun c => c.visit_id == 1) = true := by
  refine ⟨rfl, ?_, rfl⟩
  rfl

/-- C6 (amended): after `delete_visit` (resp. `delete_activity`) no live cell
of the stated container references the deleted visit (resp. activity): the
cascade is complete within that container. -/
theorem C6_cascade_scoped (db : DB) (s vid aid : Nat) :
    (∀ db', delete_visit db s vid = .ok db' →
      db'.cells.filter (fun c => c.soa_id == s && c.visit_id == vid) = []) ∧
    (∀ db', delete_activity db s aid = .ok db' →
      db'.cells.filter (fun c => c.soa_id == s && c.activity_id == aid) = []) := by
  constructor
  · intro db' hok
    unfold delete_visit at hok
    by_cases hex : _soa_exists db s
    · rw [if_pos hex] at hok
      by_cases hany : db.visits.any (fun v => v.id == vid && v.soa_id == s) = true
      · rw [if_pos hany] at hok
        injection hok with h
        subst h
        show (db.cells.filter (fun c => !(c.soa_id == s && c.visit_id == vid))).filter
          (fun c => c.soa_id == s && c.visit_id == vid) = []
        rw [List.filter_filter, List.filter_eq_nil_iff]
        intro c _
        simp
      · rw [if_neg hany] at hok
        exact Except.noConfusion hok
    · rw [if_neg hex] at hok
      exact Except.noConfusion hok
  · intro db' hok
    unfold delete_activity at hok
    by_cases hex : _soa_exists db s
    · rw [if_pos hex] at hok
      by_cases hany : db.activities.any (fun a => a.id == aid && a.soa_id == s) = true
      · rw [if_pos hany] at hok
        injection hok with h
        subst h
        show (db.cells.filter (fun c => !(c.soa_id == s && c.activity_id == aid))).filter
          (fun c => c.soa_id == s && c.activity_id == aid) = []
        rw [List.filter_filter, List.filter_eq_nil_iff]
        intro c _
        simp
      · rw [if_neg hany] at hok
        exact Except.noConfusion hok
    · rw [if_neg hex] at hok
      exact Except.noConfusion hok

theorem C6_cascade_scoped_witness :
    dbC6'.cells.filter (fun c => c.soa_id == 1 && c.visit_id == 1) = [] :=
  (C6_cascade_scoped dbC6 1 1 1).1 dbC6' rfl

/-- C8: `_reindex` of an already-contiguous container is a no-op, and
`_reindex` twice equals `_reindex` once, for both tables. -/
theorem C8_reindex_idempotent (db : DB) (s : Nat)
    (hndv : (db.visits.map (fun v => v.id)).Nodup)
    (hnda : (db.activities.map (fun a => a.id)).Nodup) :
    ((visitsOf db s).map (fun v => v.order_index) =
        List.range' 1 (visitsOf db s).length → _reindex db .visit s = db) ∧
    ((activitiesOf db s).map (fun a => a.order_index) =
        List.range' 1 (activitiesOf db s).length → _reindex db .activity s = db) ∧
    _reindex (_reindex db .visit s) .visit s = _reindex db .visit s ∧
    _reindex (_reindex db .activity s) .activity s = _reindex db .activity s := by
  refine ⟨?_, ?_, ?_, ?_⟩
  · intro hcontig
    show {db with visits := reindexRows db.visits s} = db
    rw [reindexRows_no_op db.visits s hndv hcontig]
  · intro hcontig
    show {db with activities := reindexRows db.activities s} = db
    rw [reindexRows_no_op db.activities s hnda hcontig]
  · show {db with visits := reindexRows (reindexRows db.visits s) s} =
      {db with visits := reindexRows db.visits s}
    rw [reindexRows_idem db.visits s hndv]
  · show {db with activities := reindexRows (reindexRows db.activities s) s} =
      {db with activities := reindexRows db.activities s}
    rw [reindexRows_idem db.activities s hnda]

/-- Three visits positioned 1, 2, 3 and one activity in container 1. -/
def dbThree : DB := run DB.empty
  [Op.createSoa "A", Op.addVisit 1 "V1" none, Op.addVisit 1 "V2" none,
   Op.addVisit 1 "V3" none, Op.addActivity 1 "Consent"]

theorem C8_reindex_idempotent_witness :
    _reindex dbThree .visit 1 = dbThree ∧
    _reindex (_reindex dbThree .visit 1) .visit 1 = _reindex dbThree .visit 1 ∧
    _reindex (_reindex dbThree .activity 1) .activity 1 =
      _reindex dbThree .activity 1 := by
  have h := C8_reindex_idempotent dbThree 1 (by decide) (by decide)
  exact ⟨h.1 (by decide), h.2.2.1, h.2.2.2⟩

/-- C10: frame conditions of the mutating handlers — `set_cell` leaves visits,
activities and containers untouched; `delete_visit` leaves activities,
containers and every other container's visits untouched; `delete_activity`
symmetrically. -/
theorem C10_frame (db : DB) (s v0 a0 : Nat) (st : String)
    (hndv : (db.visits.map (fun v => v.id)).Nodup)
    (hnda : (db.activities.map (fun a => a.id)).Nodup) :
    (∀ db' cid r, set_cell db s v0 a0 st = .ok (db', cid, r) →
      db'.visits = db.visits ∧ db'.activities = db.activities ∧ db'.soas = db.soas) ∧
    (∀ db', delete_visit db s v0 = .ok db' →
      db'.activities = db.activities ∧ db'.soas = db.soas ∧
      ∀ s', s' ≠ s → visitsOf db' s' = visitsOf db s') ∧
    (∀ db', delete_activity db s a0 = .ok db' →
      db'.visits = db.visits ∧ db'.soas = db.soas ∧
      ∀ s', s' ≠ s → activitiesOf db' s' = activitiesOf db s') := by
  refine ⟨?_, ?_, ?_⟩
  · intro db' cid r hok
    unfold set_cell at hok
    by_cases hex : _soa_exists db s
    · rw [if_pos hex] at hok
      cases hf : db.cells.find? (fun c =>
          c.soa_id == s && c.visit_id == v0 && c.activity_id == a0) with
      | some row =>
        rw [hf] at hok
        injection hok with h
        injection h with h1 h2
        subst h1
        exact ⟨rfl, rfl, rfl⟩
      | none =>
        rw [hf] at hok
        injection hok with h
        injection h with h1 h2
        subst h1
        exact ⟨rfl, rfl, rfl⟩
    · rw [if_neg hex] at hok
      exact Except.noConfusion hok
  · intro db' hok
    unfold delete_visit at hok
    by_cases hex : _soa_exists db s
    · rw [if_pos hex] at hok
      by_cases hany : db.visits.any (fun v => v.id == v0 && v.soa_id == s) = true
      · rw [if_pos hany] at hok
        injection hok with h
        subst h
        refine ⟨rfl, rfl, ?_⟩
        intro s' hs'
        rcases List.any_eq_true.mp hany with ⟨w, hw, hwp⟩
        rw [Bool.and_eq_true, beq_iff_eq, beq_iff_eq] at hwp
        have hbelongs : ∀ u ∈ db.visits, rid u = v0 → rsoa u = s := by
          intro u hu he
          have huw : u = w := List.inj_on_of_nodup_map hndv hu hw (by rw [hwp.1]; exact he)
          rw [huw]
          exact hwp.2
        have hnd1 : ((db.visits.filter (fun v => v.id != v0)).map (fun v => rid v)).Nodup :=
          List.Nodup.sublist (List.Sublist.map _ (List.filter_sublist _)) hndv
        show rowsOf (reindexRows (db.visits.filter (fun v => v.id != v0)) s) s' =
          rowsOf db.visits s'
        rw [reindexRows_other _ _ _ hnd1 hs', rowsOf_filter]
        rw [List.filter_eq_self]
        intro u hu
        rcases List.mem_filter.mp hu with ⟨hut, hus⟩
        have hne2 : rid u ≠ v0 :=
          fun e => hs' (by rw [← eq_of_beq hus]; exact hbelongs u hut e)
        simpa using hne2
      · rw [if_neg hany] at hok
        exact Except.noConfusion hok
    · rw [if_neg hex] at hok
      exact Except.noConfusion hok
  · intro db' hok
    unfold delete_activity at hok
    by_cases hex : _soa_exists db s
    · rw [if_pos hex] at hok
      by_cases hany : db.activities.any (fun a => a.id == a0 && a.soa_id == s) = true
      · rw [if_pos hany] at hok
        injection hok with h
        subst h
        refine ⟨rfl, rfl, ?_⟩
        intro s' hs'
        rcases List.any_eq_true.mp hany with ⟨w, hw, hwp⟩
        rw [Bool.and_eq_true, beq_iff_eq, beq_iff_eq] at hwp
        have hbelongs : ∀ u ∈ db.activities, rid u = a0 → rsoa u = s := by
          intro u hu he
          have huw : u = w := List.inj_on_of_nodup_map hnda hu hw (by rw [hwp.1]; exact he)
          rw [huw]
          exact hwp.2
        have hnd1 : ((db.activities.filter (fun a => a.id != a0)).map
            (fun a => rid a)).Nodup :=
          List.Nodup.sublist (List.Sublist.map _ (List.filter_sublist _)) hnda
        show rowsOf (reindexRows (db.activities.filter (fun a => a.id != a0)) s) s' =
          rowsOf db.activities s'
        rw [reindexRows_other _ _ _ hnd1 hs', rowsOf_filter]
        rw [List.filter_eq_self]
        intro u hu
        rcases List.mem_filter.mp hu with ⟨hut, hus⟩
        have hne2 : rid u ≠ a0 :=
          fun e => hs' (by rw [← eq_of_beq hus]; exact hbelongs u hut e)
        simpa using hne2
      · rw [if_neg hany] at hok
        exact Except.noConfusion hok
    · rw [if_neg hex] at hok
      exact Except.noConfusion hok

/-- Two containers with a visit each, one activity and one cell in
container 1. -/
def opsW : List Op := [Op.createSoa "A", Op.createSoa "B", Op.addVisit 1 "V1" none,
  Op.addVisit 2 "W1" none, Op.addActivity 1 "Act", Op.setCell 1 1 1 "X"]

def dbTwoSoa : DB := run DB.empty opsW

def dbW1 : DB := run DB.empty (opsW ++ [Op.setCell 1 1 1 "Y"])

def dbWd : DB := run DB.empty (opsW ++ [Op.deleteVisit 1 1])

def dbWa : DB := run DB.empty (opsW ++ [Op.deleteActivity 1 1])

theorem C10_frame_witness :
    (dbW1.visits = dbTwoSoa.visits ∧ dbW1.activities = dbTwoSoa.activities ∧
      dbW1.soas = dbTwoSoa.soas) ∧
    visitsOf dbWd 2 = visitsOf dbTwoSoa 2 ∧
    activitiesOf dbWa 2 = activitiesOf dbTwoSoa 2 := by
  have h := C10_frame dbTwoSoa 1 1 1 "Y" (by decide) (by decide)
  exact ⟨h.1 dbW1 1 "Y" rfl, (h.2.1 dbWd rfl).2.2 2 (by decide),
    (h.2.2 dbWa rfl).2.2 2 (by decide)⟩

/-- C4: for a container with at least one visit and one activity (and, as in
every reachable state, at most one cell per key), the serialized wide table is
exactly the table of §4.4: header `"Activity"` followed by each visit's
raw header if non-empty else its name, in position order, then one row per
activity in position order, densified by the unique-cell lookup. -/
theorem C4_wide_table (db : DB) (s : Nat)
    (hkeys : db.cells.Pairwise keyDistinct)
    (hv : visitsOf db s ≠ []) (ha : activitiesOf db s ≠ []) :
    _generate_wide_csv db s = .ok (specWideTable (sortRows (visitsOf db s))
      (sortRows (activitiesOf db s)) (cellsOf db s)) := by
  rw [generate_wide_csv_eq]
  have hcond : ((sortRows (rowsOf db.visits s)).isEmpty ||
      (sortRows (rowsOf db.activities s)).isEmpty) = false :=
    Bool.or_eq_false_iff.mpr ⟨isEmpty_false_of_ne_nil (sortRows_ne_nil hv),
      isEmpty_false_of_ne_nil (sortRows_ne_nil ha)⟩
  rw [if_neg (by rw [hcond]; exact Bool.false_ne_true)]
  have e1 : sortRows (visitsOf db s) = sortRows (rowsOf db.visits s) := rfl
  have e2 : sortRows (activitiesOf db s) = sortRows (rowsOf db.activities s) := rfl
  have e3 : cellsOf db s = db.cells.filter (fun c => c.soa_id == s) := rfl
  rw [e1, e2, e3]
  unfold specWideTable
  congr 1
  congr 1
  · congr 1
    apply List.map_congr_left
    intro v _
    by_cases hrh : v.raw_header = ""
    · rw [if_pos hrh, if_neg (not_not_intro hrh)]
    · rw [if_neg hrh, if_pos hrh]
  · apply List.map_congr_left
    intro a _
    congr 1
    apply List.map_congr_left
    intro v _
    exact cellLookup_eq_spec (pairwise_vapred_of_keyDistinct
      (List.Pairwise.sublist (List.filter_sublist _) hkeys) (cellsOf_soa db s) v.id a.id)

/-- Scenario A in miniature: a raw-headered visit, a plain visit, two
activities and one set cell. -/
def dbScn : DB := run DB.empty
  [Op.createSoa "Trial X", Op.addVisit 1 "Screening" (some "Screening (V1)"),
   Op.addVisit 1 "Day 1" none, Op.addActivity 1 "Consent", Op.addActivity 1 "Vitals",
   Op.setCell 1 1 1 "X"]

theorem C4_wide_table_witness :
    _generate_wide_csv dbScn 1 = Except.ok (specWideTable (sortRows (visitsOf dbScn 1))
      (sortRows (activitiesOf dbScn 1)) (cellsOf dbScn 1)) :=
  C4_wide_table dbScn 1 (by decide) (by decide) (by decide)

/-- C9: serialization is determined by the container's visits, activities and
the *set* of cells: permuting the stored order of the cell rows (same
containers, same visit and activity tables) never changes the wide table; and
in this purely functional model serializing an unchanged state twice trivially
yields identical output. -/
theorem C9_serialization_deterministic (db1 db2 : DB) (s : Nat)
    (_hsoas : db1.soas = db2.soas) (hvis : db1.visits = db2.visits)
    (hact : db1.activities = db2.activities)
    (hperm : db1.cells.Perm db2.cells)
    (hkeys : db1.cells.Pairwise keyDistinct) :
    _generate_wide_csv db1 s = _generate_wide_csv db2 s ∧
    _generate_wide_csv db1 s = _generate_wide_csv db1 s := by
  refine ⟨?_, rfl⟩
  rw [generate_wide_csv_eq, generate_wide_csv_eq, hvis, hact]
  by_cases hcond : ((sortRows (rowsOf db2.visits s)).isEmpty ||
      (sortRows (rowsOf db2.activities s)).isEmpty) = true
  · rw [if_pos hcond, if_pos hcond]
  · rw [if_neg hcond, if_neg hcond]
    congr 1
    congr 1
    apply List.map_congr_left
    intro a _
    congr 1
    apply List.map_congr_left
    intro v _
    have hpermF : (db1.cells.filter (fun c => c.soa_id == s)).Perm
        (db2.cells.filter (fun c => c.soa_id == s)) := hperm.filter _
    have hp1 := pairwise_vapred_of_keyDistinct
      (List.Pairwise.sublist (List.filter_sublist _) hkeys) (cellsOf_soa db1 s) v.id a.id
    have hp2 : (db2.cells.filter (fun c => c.soa_id == s)).Pairwise (fun c d =>
        ¬((c.visit_id == v.id && c.activity_id == a.id) = true ∧
          (d.visit_id == v.id && d.activity_id == a.id) = true)) := by
      refine (List.Perm.pairwise_iff ?_ hpermF).mp hp1
      intro x y hxy hcon
      exact hxy ⟨hcon.2, hcon.1⟩
    rw [cellLookup_eq_spec hp1, cellLookup_eq_spec hp2]
    unfold specLookup
    have hfp : ((db1.cells.filter (fun c => c.soa_id == s)).filter
        (fun c => c.visit_id == v.id && c.activity_id == a.id)).Perm
        ((db2.cells.filter (fun c => c.soa_id == s)).filter
          (fun c => c.visit_id == v.id && c.activity_id == a.id)) := hpermF.filter _
    rw [perm_eq_of_length_le_one hfp (length_filter_le_one hp1)]

/-- The C9 witness states: two cells stored in opposite orders. -/
def dbP1 : DB := run DB.empty
  [Op.createSoa "A", Op.addVisit 1 "V1" none, Op.addVisit 1 "V2" none,
   Op.addActivity 1 "Act", Op.setCell 1 1 1 "X", Op.setCell 1 2 1 "Y"]

def dbP2 : DB := {dbP1 with cells := [⟨2, 1, 2, 1, "Y"⟩, ⟨1, 1, 1, 1, "X"⟩]}

theorem C9_serialization_deterministic_witness :
    _generate_wide_csv dbP1 1 = _generate_wide_csv dbP2 1 :=
  (C9_serialization_deterministic dbP1 dbP2 1 rfl rfl rfl (by decide) (by decide)).1

/-- C7: with contiguous positions 1..N, deleting the visit at position `k`
succeeds and leaves the survivors in their original relative order, each
survivor below position `k` keeping its position and each one above `k`
moving down by one. -/
theorem C7_delete_position (db : DB) (s vid k : Nat) (w : Visit)
    (hnd : (db.visits.map (fun v => v.id)).Nodup)
    (hcontig : (visitsOf db s).map (fun v => v.order_index) =
      List.range' 1 (visitsOf db s).length)
    (hex : _soa_exists db s = true)
    (hw : w ∈ visitsOf db s) (hwid : w.id = vid) (hwoi : w.order_index = k) :
    ∃ db', delete_visit db s vid = .ok db' ∧
      visitsOf db' s = ((visitsOf db s).filter (fun v => v.id != vid)).map
        (fun v => if v.order_index < k then v
          else {v with order_index := v.order_index - 1}) := by
  have hany : db.visits.any (fun v => v.id == vid && v.soa_id == s) = true := by
    refine List.any_eq_true.mpr ⟨w, List.mem_of_mem_filter hw, ?_⟩
    rw [Bool.and_eq_true, beq_iff_eq, beq_iff_eq]
    exact ⟨hwid, eq_of_beq (List.mem_filter.mp hw).2⟩
  have hdel : delete_visit db s vid = .ok (_reindex {db with
      cells := db.cells.filter (fun c => !(c.soa_id == s && c.visit_id == vid)),
      visits := db.visits.filter (fun v => v.id != vid)} .visit s) := by
    unfold delete_visit
    rw [if_pos hex, if_pos hany]
  refine ⟨_, hdel, ?_⟩
  have hnd1 : ((db.visits.filter (fun v => v.id != vid)).map (fun v => rid v)).Nodup :=
    List.Nodup.sublist (List.Sublist.map _ (List.filter_sublist _)) hnd
  have hlt : (rowsOf db.visits s).Pairwise (OiLt (α := Visit)) :=
    pairwise_oiLt_of_contig hcontig
  have hrows1 : rowsOf (db.visits.filter (fun v => v.id != vid)) s =
      (rowsOf db.visits s).filter (fun v => v.id != vid) := rowsOf_filter _ _ _
  have hsort1 : (rowsOf (db.visits.filter (fun v => v.id != vid)) s).Pairwise
      (OiLe (α := Visit)) := by
    rw [hrows1]
    exact (List.Pairwise.sublist (List.filter_sublist _) hlt).imp le_of_lt
  show rowsOf (reindexRows (db.visits.filter (fun v => v.id != vid)) s) s = _
  rw [reindexRows_self _ _ hnd1 hsort1, hrows1]
  obtain ⟨A, B, hL⟩ := List.append_of_mem hw
  have hL' : rowsOf db.visits s = A ++ w :: B := hL
  have hcontig' : (rowsOf db.visits s).map (fun v => roi v) =
      List.range' 1 (rowsOf db.visits s).length := hcontig
  rw [hL', List.map_append, List.map_cons, List.length_append, List.length_cons]
    at hcontig'
  have hsplit : List.range' 1 (A.length + (B.length + 1)) =
      List.range' 1 A.length ++ List.range' (1 + A.length) (B.length + 1) := by
    have h := List.range'_append 1 A.length (B.length + 1) 1
    rw [one_mul] at h
    rw [h]
    congr 1
    omega
  rw [hsplit] at hcontig'
  have hlenA : (A.map (fun v => roi v)).length = (List.range' 1 A.length).length := by
    rw [List.length_map, List.length_range']
  obtain ⟨hA, hwB⟩ := List.append_inj hcontig' hlenA
  rw [List.range'_succ] at hwB
  obtain ⟨hkw, hB⟩ := List.cons_eq_cons.mp hwB
  have hk : k = 1 + A.length := by
    rw [← hwoi]
    exact hkw
  have hndL : ((rowsOf db.visits s).map (fun v => rid v)).Nodup := nodup_rid_rowsOf hnd s
  rw [hL', List.map_append, List.map_cons, List.nodup_append] at hndL
  obtain ⟨hndA, hndwB, hdisj⟩ := hndL
  rw [List.nodup_cons] at hndwB
  obtain ⟨hwnB, hndB⟩ := hndwB
  have hfA : A.filter (fun v => v.id != vid) = A := by
    rw [List.filter_eq_self]
    intro u hu
    have hne : rid u ≠ vid := by
      intro he
      apply hdisj (List.mem_map.mpr ⟨u, hu, rfl⟩)
      rw [he, ← hwid]
      exact List.mem_cons_self _ _
    simpa using hne
  have hfB : B.filter (fun v => v.id != vid) = B := by
    rw [List.filter_eq_self]
    intro u hu
    have hne : rid u ≠ vid := by
      intro he
      apply hwnB
      have hrw : rid w = rid u := by
        rw [he]
        exact hwid
      rw [hrw]
      exact List.mem_map.mpr ⟨u, hu, rfl⟩
    simpa using hne
  have hfw : (w :: B).filter (fun v => v.id != vid) = B := by
    rw [List.filter_cons_of_neg, hfB]
    simp [hwid]
  have hLfilter : (rowsOf db.visits s).filter (fun v => v.id != vid) = A ++ B := by
    rw [hL', List.filter_append, hfA, hfw]
  have hLfilter2 : (visitsOf db s).filter (fun v => v.id != vid) = A ++ B := hLfilter
  rw [hLfilter, hLfilter2, assignFrom_append, List.map_append]
  congr 1
  · rw [assignFrom_of_map_roi hA]
    symm
    apply map_eq_self
    intro v hv'
    have hmem : roi v ∈ List.range' 1 A.length := by
      rw [← hA]
      exact List.mem_map.mpr ⟨v, hv', rfl⟩
    rw [List.mem_range'_1] at hmem
    have hmem' : 1 ≤ v.order_index ∧ v.order_index < 1 + A.length := hmem
    have hvk : v.order_index < k := by
      rw [hk]
      omega
    rw [if_pos hvk]
  · have hB' : B.map (fun v => roi v) = List.range' ((1 + A.length) + 1) B.length := hB
    rw [assignFrom_shift hB']
    apply List.map_congr_left
    intro v hv'
    have hmem : roi v ∈ List.range' (1 + A.length + 1) B.length := by
      rw [← hB]
      exact List.mem_map.mpr ⟨v, hv', rfl⟩
    rw [List.mem_range'_1] at hmem
    have hmem' : 1 + A.length + 1 ≤ v.order_index ∧
        v.order_index < 1 + A.length + 1 + B.length := hmem
    have hnlt : ¬(v.order_index < k) := by
      rw [hk]
      omega
    rw [if_neg hnlt]
    rfl

def dbThreeDel : DB := run DB.empty
  [Op.createSoa "A", Op.addVisit 1 "V1" none, Op.addVisit 1 "V2" none,
   Op.addVisit 1 "V3" none, Op.addActivity 1 "Consent", Op.deleteVisit 1 2]

theorem C7_delete_position_witness :
    delete_visit dbThree 1 2 = Except.ok dbThreeDel ∧
    visitsOf dbThreeDel 1 = ((visitsOf dbThree 1).filter (fun v => v.id != 2)).map
      (fun v => if v.order_index < 2 then v
        else {v with order_index := v.order_index - 1}) := by
  have h := C7_delete_position dbThree 1 2 2 ⟨2, 1, "V2", "V2", 2⟩ (by decide) (by decide)
    rfl (by decide) rfl rfl
  obtain ⟨db', h1, h2⟩ := h
  have hdb : db' = dbThreeDel := by
    have hrun : delete_visit dbThree 1 2 = Except.ok dbThreeDel := rfl
    rw [h1] at hrun
    injection hrun
  subst hdb
  exact ⟨h1, h2⟩

end SoaBuilder
